import Mathlib

/-!
# slack-term: the channel-list component (`components/channels.go`)

A shallow embedding of the `Channels` component: the channel store, the
visible-list derivation, the cursor/scroll controller and search navigation.

Conventions of the embedding.

* Go `int` values (`Offset`, `CursorPosition`, `SearchPosition`, positions) are
  `Int`; slice indices produced by `range` loops are `Nat`. The component only adds
  and subtracts row numbers and list lengths, and 64-bit wrap-around is not modelled.
* `c.List.InnerBounds()` belongs to the termui library; only `Min.Y` and `Max.Y`
  are read, and they are carried in the state as `InnerBounds`.
* A method mutating its receiver becomes a function returning the new state.
* `locateCursor` and `SetSelectedChannel` call each other; each call consumes one
  unit of fuel, and running out of fuel is the fault `outOfFuel`.
* A Go run-time panic on a slice index is the fault `indexOutOfRange`.
-/

namespace SlackTerm

/-- The record type `ChannelItem`; its field `Type` is named `ChannelType` here. -/
structure ChannelItem where
  ID : String
  Name : String
  Topic : String
  ChannelType : String
  UserID : String
  Presence : String
  Notification : Bool
  StylePrefix : String
  StyleIcon : String
  StyleText : String
  IsSearchResult : Bool
  deriving DecidableEq, Repr

/-- The two rows of `c.List.InnerBounds()` the component reads: `Min.Y` and `Max.Y`. -/
structure Rectangle where
  MinY : Int
  MaxY : Int
  deriving DecidableEq, Repr

/-- The component state `Channels`; `InnerBounds` stands for `c.List.InnerBounds()`. -/
structure Channels where
  ChannelItems : List ChannelItem
  CursorPosition : Int
  InnerBounds : Rectangle
  Offset : Int
  SearchPosition : Int
  SelectedChannel : String
  UnreadOnly : Bool
  deriving DecidableEq, Repr

/-- The ways a call can fail to return a state. -/
inductive Fault where
  | outOfFuel
  | indexOutOfRange
  deriving DecidableEq, Repr

/-- Constructor `CreateChannelsComponent(height, unreadOnly)`. The height is handed to
termui; `inner` is what termui reports as the inner bounds of the created list. -/
def CreateChannelsComponent (_height : Int) (unreadOnly : Bool) (inner : Rectangle) : Channels :=
  { ChannelItems := []
    CursorPosition := 0
    InnerBounds := inner
    Offset := 0
    SearchPosition := 0
    SelectedChannel := ""
    UnreadOnly := unreadOnly }

/-- `ListChannels`: all records when unread-only is off, otherwise the loop appending
each record that is selected, unread or a search result. -/
def ListChannels (c : Channels) : List ChannelItem :=
  if !c.UnreadOnly then
    c.ChannelItems
  else
    c.ChannelItems.foldl
      (fun items chn =>
        if chn.ID == c.SelectedChannel || chn.Notification || chn.IsSearchResult then
          items ++ [chn]
        else items)
      []

/-- `ListSearchResults`: the loop over `ListChannels()` appending each search result. -/
def ListSearchResults (c : Channels) : List ChannelItem :=
  (ListChannels c).foldl
    (fun items chn => if chn.IsSearchResult then items ++ [chn] else items)
    []

/-- The loop of `FindChannel`, at index `i`: `(index, ok)`, `(0, false)` when the
loop ends without a hit. -/
def findChannelFrom : List ChannelItem → String → Nat → Nat × Bool
  | [], _, _ => (0, false)
  | channel :: rest, channelID, i =>
    if channel.ID == channelID then (i, true) else findChannelFrom rest channelID (i + 1)

/-- `FindChannel`: index of the first record of `ChannelItems` with the given id. -/
def FindChannel (c : Channels) (channelID : String) : Nat × Bool :=
  findChannelFrom c.ChannelItems channelID 0

/-- `ScrollUp`. -/
def ScrollUp (c : Channels) : Channels :=
  if c.CursorPosition == c.InnerBounds.MinY then
    if c.Offset > 0 then { c with Offset := c.Offset - 1 } else c
  else c

/-- `ScrollDown`. -/
def ScrollDown (c : Channels) : Channels :=
  if c.CursorPosition ≥ c.InnerBounds.MaxY then
    if c.Offset < (c.ChannelItems.length : Int) - 1 then { c with Offset := c.Offset + 1 } else c
  else c

/-- The `for i := 0; i < len(channels)-1; i++` loop of `locateCursor`, entered at
index `i` with the records still to visit (the caller passes `channels.dropLast`,
the records at indices `0 .. len-2`). -/
def locateCursorLoop : List ChannelItem → Nat → Channels → Channels
  | [], _, c => c
  | chn :: rest, i, c =>
    let c1 := ScrollUp (ScrollDown c)
    if chn.ID == c1.SelectedChannel then
      { c1 with CursorPosition := (i : Int) - c1.Offset + 1 }
    else locateCursorLoop rest (i + 1) c1

mutual

/-- `locateCursor`; its returned triple `(prev, curr, next)` is dropped by every
caller and is not modelled. -/
def locateCursor : Nat → Channels → Except Fault Channels
  | 0, _ => .error .outOfFuel
  | fuel + 1, c =>
    let c1 := { c with CursorPosition := c.InnerBounds.MinY }
    let channels := ListChannels c1
    match channels with
    | first :: _ =>
      if c1.SelectedChannel == "" then
        SetSelectedChannel fuel c1 first.ID
      else .ok (locateCursorLoop channels.dropLast 0 c1)
    | [] => .ok (locateCursorLoop channels.dropLast 0 c1)

/-- `SetSelectedChannel`. -/
def SetSelectedChannel : Nat → Channels → String → Except Fault Channels
  | 0, _, _ => .error .outOfFuel
  | fuel + 1, c, channelID =>
    let c1 := if (FindChannel c channelID).2 then { c with SelectedChannel := channelID } else c
    locateCursor fuel c1

end

/-- The slice write `c.ChannelItems[index] = f(c.ChannelItems[index])`. -/
def updateAt : List ChannelItem → Nat → (ChannelItem → ChannelItem) → List ChannelItem
  | [], _, _ => []
  | x :: rest, 0, f => f x :: rest
  | x :: rest, i + 1, f => x :: updateAt rest i f

/-- `SetChannels`. -/
def SetChannels (fuel : Nat) (c : Channels) (channels : List ChannelItem) :
    Except Fault Channels := do
  let c1 ← locateCursor fuel { c with ChannelItems := channels }
  match c1.ChannelItems with
  | first :: _ => if !c1.UnreadOnly then SetSelectedChannel fuel c1 first.ID else pure c1
  | [] => pure c1

/-- `MarkAsRead`. -/
def MarkAsRead (c : Channels) (channelID : String) : Channels :=
  let r := FindChannel c channelID
  if r.2 then
    { c with ChannelItems := updateAt c.ChannelItems r.1 (fun x => { x with Notification := false }) }
  else c

/-- `MarkAsUnread`. -/
def MarkAsUnread (c : Channels) (channelID : String) : Channels :=
  let r := FindChannel c channelID
  if r.2 then
    { c with ChannelItems := updateAt c.ChannelItems r.1 (fun x => { x with Notification := true }) }
  else c

/-- `SetPresence`. -/
def SetPresence (c : Channels) (channelID : String) (presence : String) : Channels :=
  let r := FindChannel c channelID
  if r.2 then
    { c with ChannelItems := updateAt c.ChannelItems r.1 (fun x => { x with Presence := presence }) }
  else c

/-- The zero value of `ChannelItem` (a Go variable declared without a value). -/
def zeroChannelItem : ChannelItem :=
  { ID := "", Name := "", Topic := "", ChannelType := "", UserID := "", Presence := "",
    Notification := false, StylePrefix := "", StyleIcon := "", StyleText := "",
    IsSearchResult := false }

/-- The loop of `getPreviousItem` over the records still to visit, `prev` being the
record visited last. -/
def getPreviousItemLoop : List ChannelItem → String → ChannelItem → ChannelItem × Bool
  | [], _, prev => (prev, false)
  | curr :: rest, selected, prev =>
    if curr.ID == selected && prev.ID != "" then (prev, true)
    else getPreviousItemLoop rest selected curr

/-- `getPreviousItem`: `(prev, ok)`. -/
def getPreviousItem (c : Channels) : ChannelItem × Bool :=
  getPreviousItemLoop (ListChannels c) c.SelectedChannel zeroChannelItem

/-- The loop of `getNextItem`, which walks the visible list from its last index down:
the argument lists the records still to visit, last one first, so the index `i` of
its head is the number of records after it in that argument. -/
def getNextItemLoop : List ChannelItem → String → ChannelItem → ChannelItem × Nat × Bool
  | [], _, next => (next, 0, false)
  | curr :: rest, selected, next =>
    if curr.ID == selected && next.ID != "" then (next, rest.length, true)
    else getNextItemLoop rest selected curr

/-- `getNextItem`: `(next, pos, ok)`. -/
def getNextItem (c : Channels) : ChannelItem × Nat × Bool :=
  getNextItemLoop (ListChannels c).reverse c.SelectedChannel zeroChannelItem

/-- `MoveCursorUp`: the new state and the returned `(hovering, ok)`. -/
def MoveCursorUp (fuel : Nat) (c : Channels) : Except Fault (Channels × ChannelItem × Bool) :=
  let r := getPreviousItem c
  if r.2 then do
    let c1 ← SetSelectedChannel fuel c r.1.ID
    pure (ScrollUp c1, r.1, true)
  else pure (c, r.1, false)

/-- `MoveCursorDown`: the new state and the returned `(hovering, ok)`. -/
def MoveCursorDown (fuel : Nat) (c : Channels) : Except Fault (Channels × ChannelItem × Bool) :=
  let r := getNextItem c
  if r.2.2 then do
    let c1 ← SetSelectedChannel fuel c r.1.ID
    pure (ScrollDown c1, r.1, true)
  else pure (c, r.1, false)

/-- `MoveCursorTop`. -/
def MoveCursorTop (fuel : Nat) (c : Channels) : Except Fault Channels :=
  match ListChannels c with
  | first :: _ => do
    let c1 ← SetSelectedChannel fuel c first.ID
    pure { c1 with Offset := 0 }
  | [] => pure { c with Offset := 0 }

/-- `MoveCursorBottom`. -/
def MoveCursorBottom (fuel : Nat) (c : Channels) : Except Fault Channels :=
  let list := ListChannels c
  match list.getLast? with
  | some last => do
    let c1 ← SetSelectedChannel fuel c last.ID
    let offset := (list.length : Int) - (c1.InnerBounds.MaxY - 1)
    if offset < 0 then pure { c1 with Offset := 0 } else pure { c1 with Offset := offset }
  | none => pure c

/-- `GotoPosition`: the new state and the returned `ok`. Indexing `results[newPos]`
with a negative `newPos` is a run-time panic. -/
def GotoPosition (fuel : Nat) (c : Channels) (newPos : Int) : Except Fault (Channels × Bool) :=
  let results := ListSearchResults c
  if results.length == 0 || newPos > (results.length : Int) - 1 then pure (c, false)
  else
    let minRange := c.Offset
    let maxRange := c.Offset + (c.InnerBounds.MaxY - 2)
    if newPos < 0 then .error .indexOutOfRange
    else
      match results.get? newPos.toNat with
      | none => .error .indexOutOfRange
      | some target =>
        let r := FindChannel c target.ID
        if !r.2 then pure (c, false)
        else
          match c.ChannelItems.get? r.1 with
          | none => .error .indexOutOfRange
          | some found =>
            let newChannelIndex : Int := r.1
            let newChannelID := found.ID
            if newChannelIndex < minRange then do
              let c1 ← SetSelectedChannel fuel
                { c with Offset := c.Offset - (minRange - newChannelIndex) } newChannelID
              pure (c1, true)
            else if newChannelIndex > maxRange then do
              let c1 ← SetSelectedChannel fuel
                { c with Offset := c.Offset + (newChannelIndex - maxRange) } newChannelID
              pure (c1, true)
            else do
              let c1 ← SetSelectedChannel fuel c newChannelID
              pure (c1, true)

/-- The inner loop of `Search` for one match `m`: flag the first record named `m`;
the boolean tells whether one was found. -/
def flagFirstNamed : List ChannelItem → String → List ChannelItem × Bool
  | [], _ => ([], false)
  | item :: rest, m =>
    if m == item.Name then ({ item with IsSearchResult := true } :: rest, true)
    else ((flagFirstNamed rest m).1.cons item, (flagFirstNamed rest m).2)

/-- The first loop of `Search`: clear the flag of every record that carries it. -/
def clearSearchResults (items : List ChannelItem) : List ChannelItem :=
  items.map (fun chn => if chn.IsSearchResult then { chn with IsSearchResult := false } else chn)

/-- The third loop of `Search`: for every match in turn, flag the first record with
that name and count it; the result is the store and `resultCount`. -/
def flagMatches (matched : List String) (items : List ChannelItem) : List ChannelItem × Int :=
  matched.foldl
    (fun (acc : List ChannelItem × Int) m =>
      let r := flagFirstNamed acc.1 m
      if r.2 then (r.1, acc.2 + 1) else acc)
    (items, 0)

/-- `Search`: the new state and the returned `resultCount`. The fuzzy matcher
`fuzzy.Find` of the fuzzysearch library is the parameter `find`. -/
def Search (find : String → List String → List String) (fuel : Nat) (c : Channels)
    (term : String) : Except Fault (Channels × Int) :=
  let cleared := clearSearchResults c.ChannelItems
  let targets := cleared.map (fun chn => chn.Name)
  let matched := find term targets
  let flagged := flagMatches matched cleared
  let c1 := { c with ChannelItems := flagged.1 }
  if flagged.2 > 0 then do
    let r ← GotoPosition fuel c1 0
    pure ({ r.1 with SearchPosition := 0 }, flagged.2)
  else pure (c1, flagged.2)

/-- `SearchNext`. -/
def SearchNext (fuel : Nat) (c : Channels) : Except Fault Channels := do
  let newPosition := c.SearchPosition + 1
  let r ← GotoPosition fuel c newPosition
  if r.2 then pure { r.1 with SearchPosition := newPosition } else pure r.1

/-- `SearchPrev`. -/
def SearchPrev (fuel : Nat) (c : Channels) : Except Fault Channels := do
  let newPosition := c.SearchPosition - 1
  let r ← GotoPosition fuel c newPosition
  if r.2 then pure { r.1 with SearchPosition := newPosition } else pure r.1

/-- `Jump`: the `range` loop runs `GotoPosition(0)` once when the visible list is
non-empty and is left at once. -/
def Jump (fuel : Nat) (c : Channels) : Except Fault Channels :=
  match ListChannels c with
  | _ :: _ => do
    let r ← GotoPosition fuel c 0
    pure r.1
  | [] => pure c

/-- The predicate of the unread-only filter: selected, unread, or a search result. -/
def isPinned (selected : String) (r : ChannelItem) : Bool :=
  r.ID == selected || r.Notification || r.IsSearchResult

/-- The calls a client of the component can make on it; `locateCursor` is the cursor
relocation `Buffer` runs before every render. -/
inductive Op where
  | SetChannels (channels : List ChannelItem)
  | MarkAsRead (channelID : String)
  | MarkAsUnread (channelID : String)
  | SetPresence (channelID : String) (presence : String)
  | SetSelectedChannel (channelID : String)
  | MoveCursorUp
  | MoveCursorDown
  | MoveCursorTop
  | MoveCursorBottom
  | ScrollUp
  | ScrollDown
  | Search (term : String)
  | SearchNext
  | SearchPrev
  | GotoPosition (newPos : Int)
  | Jump
  | locateCursor

/-- The state an operation leaves, when it returns. -/
def Op.run (find : String → List String → List String) (fuel : Nat) :
    Op → Channels → Except Fault Channels
  | .SetChannels channels, c => SlackTerm.SetChannels fuel c channels
  | .MarkAsRead channelID, c => pure (SlackTerm.MarkAsRead c channelID)
  | .MarkAsUnread channelID, c => pure (SlackTerm.MarkAsUnread c channelID)
  | .SetPresence channelID presence, c => pure (SlackTerm.SetPresence c channelID presence)
  | .SetSelectedChannel channelID, c => SlackTerm.SetSelectedChannel fuel c channelID
  | .MoveCursorUp, c => (SlackTerm.MoveCursorUp fuel c).map (fun r => r.1)
  | .MoveCursorDown, c => (SlackTerm.MoveCursorDown fuel c).map (fun r => r.1)
  | .MoveCursorTop, c => SlackTerm.MoveCursorTop fuel c
  | .MoveCursorBottom, c => SlackTerm.MoveCursorBottom fuel c
  | .ScrollUp, c => pure (SlackTerm.ScrollUp c)
  | .ScrollDown, c => pure (SlackTerm.ScrollDown c)
  | .Search term, c => (SlackTerm.Search find fuel c term).map (fun r => r.1)
  | .SearchNext, c => SlackTerm.SearchNext fuel c
  | .SearchPrev, c => SlackTerm.SearchPrev fuel c
  | .GotoPosition newPos, c => (SlackTerm.GotoPosition fuel c newPos).map (fun r => r.1)
  | .Jump, c => SlackTerm.Jump fuel c
  | .locateCursor, c => SlackTerm.locateCursor fuel c

/-- The states reached from `init` by finitely many operations that return. -/
inductive Reachable (find : String → List String → List String) (init : Channels) :
    Channels → Prop where
  | init : Reachable find init init
  | step {c c1 : Channels} (op : Op) (fuel : Nat) :
      Reachable find init c → op.run find fuel c = .ok c1 → Reachable find init c1

/-- The state after a list of operations, each run with the same fuel. -/
def runOps (find : String → List String → List String) (fuel : Nat) :
    List Op → Channels → Except Fault Channels
  | [], c => pure c
  | op :: rest, c => do
    let c1 ← op.run find fuel c
    runOps find fuel rest c1

/-- A record with the given id and name and every other field zero. -/
def item (id : String) : ChannelItem :=
  { zeroChannelItem with ID := id, Name := id }

/-- A matcher that finds nothing, for runs in which no search takes place. -/
def findNothing : String → List String → List String :=
  fun _ _ => []

/-- The ids of a list of records, in order. -/
def ids (l : List ChannelItem) : List String :=
  l.map (fun r => r.ID)

/-- `c1` differs from `c` at most in `Offset` and `CursorPosition`. -/
def OnlyScroll (c c1 : Channels) : Prop :=
  c1 = { c with Offset := c1.Offset, CursorPosition := c1.CursorPosition }

/-- `c1` has the store, mode, bounds and search position of `c`, and its selection is
the selection of `c` or the id of a stored record. -/
def Reselected (c c1 : Channels) : Prop :=
  c1.ChannelItems = c.ChannelItems ∧ c1.UnreadOnly = c.UnreadOnly ∧
  c1.InnerBounds = c.InnerBounds ∧ c1.SearchPosition = c.SearchPosition ∧
  (c1.SelectedChannel = c.SelectedChannel ∨ c1.SelectedChannel ∈ ids c.ChannelItems)

/-- `c1` has the mode, bounds and record ids of `c`, and its selection is the
selection of `c` or the id of a stored record. -/
def Frame (c c1 : Channels) : Prop :=
  c1.UnreadOnly = c.UnreadOnly ∧ c1.InnerBounds = c.InnerBounds ∧
  ids c1.ChannelItems = ids c.ChannelItems ∧
  (c1.SelectedChannel = c.SelectedChannel ∨ c1.SelectedChannel ∈ ids c.ChannelItems)

/-- No dangling selection: a non-empty store holds a record with the selected id. -/
def Resolves (c : Channels) : Prop :=
  c.ChannelItems ≠ [] → c.SelectedChannel ∈ ids c.ChannelItems

/-- The state `locateCursor` returns when it does not call `SetSelectedChannel`. -/
def relocate (c : Channels) : Channels :=
  locateCursorLoop (ListChannels c).dropLast 0 { c with CursorPosition := c.InnerBounds.MinY }

/-- The first statement of `SetSelectedChannel`: select the id if a record has it. -/
def selectIfFound (c : Channels) (channelID : String) : Channels :=
  if (FindChannel c channelID).2 then { c with SelectedChannel := channelID } else c

/-- An unread record with the given id and name. -/
def unread (id : String) : ChannelItem :=
  { item id with Notification := true }

/-- A freshly created component whose list occupies rows 0..6 with a border, so that
its inner rows are 1..5 (`Min.Y = 1`, `Max.Y = 6`, five rows). -/
def fresh (unreadOnly : Bool) : Channels :=
  CreateChannelsComponent 7 unreadOnly ⟨1, 6⟩

/-- The component with the given store, selection and offset, unread-only off, in the
five-row viewport of `fresh`. -/
def listing (items : List ChannelItem) (selected : String) (offset : Int) : Channels :=
  { ChannelItems := items, CursorPosition := 1, InnerBounds := ⟨1, 6⟩, Offset := offset,
    SearchPosition := 0, SelectedChannel := selected, UnreadOnly := false }

/-- A matcher that returns the names equal to the term. -/
def findExact : String → List String → List String :=
  fun term names => names.filter (fun n => n == term)

/-- Ten read records `c0 .. c9`. -/
def tenItems : List ChannelItem :=
  ["c0", "c1", "c2", "c3", "c4", "c5", "c6", "c7", "c8", "c9"].map item

/-- A record flagged as a search result, with the given id and name. -/
def flagged (id : String) : ChannelItem :=
  { item id with IsSearchResult := true }

/-- The unread-only component with the given store, offset and `c9` selected, in the
five-row viewport of `fresh`, cursor on the top row. -/
def searched (items : List ChannelItem) (offset : Int) : Channels :=
  { ChannelItems := items, CursorPosition := 1, InnerBounds := ⟨1, 6⟩, Offset := offset,
    SearchPosition := 0, SelectedChannel := "c9", UnreadOnly := true }

/-- Two unread records, then `c0 .. c8` read, then `c9` flagged as a search result. -/
def unreadThenTen : List ChannelItem :=
  [unread "u1", unread "u2"] ++ tenItems.dropLast ++ [flagged "c9"]

/-- Nothing is selected and the first visible record has the empty id: the states in
which `locateCursor` and `SetSelectedChannel` keep calling each other. -/
def Diverging (c : Channels) : Prop :=
  c.SelectedChannel = "" ∧ ∃ first rest, ListChannels c = first :: rest ∧ first.ID = ""

/-- Two records that share the name `general`. -/
def twoGenerals : List ChannelItem :=
  [{ item "a" with Name := "general" }, { item "b" with Name := "general" }]

/-- The offset `GotoPosition` writes before it selects the record at store index `p`:
`p` when the record is above the window, shifted so that the record is the last row of
the window `[Offset, Offset + (Max.Y - 2)]` when it is below, unchanged otherwise. -/
def gotoOffset (c : Channels) (p : Int) : Int :=
  if p < c.Offset then c.Offset - (c.Offset - p)
  else if p > c.Offset + (c.InnerBounds.MaxY - 2) then
    c.Offset + (p - (c.Offset + (c.InnerBounds.MaxY - 2)))
  else c.Offset

/-- Ten records `c0 .. c9` of which `c8` alone is flagged as a search result. -/
def ninthFlagged : List ChannelItem :=
  tenItems.take 8 ++ [flagged "c8"] ++ tenItems.drop 9

/-- Ten records `c0 .. c9` of which `c2` alone is flagged as a search result. -/
def thirdFlagged : List ChannelItem :=
  tenItems.take 2 ++ [flagged "c2"] ++ tenItems.drop 3

/-- The matcher `fuzzy.Find` as the sub-list of the names that satisfy a match
predicate `p term`. -/
def findBy (p : String → String → Bool) : String → List String → List String :=
  fun term names => names.filter (p term)

/-- A match predicate: the characters of the term occur in the name in that order. -/
def subsequenceMatch (term name : String) : Bool :=
  term.data.isSublist name.data

/-- The store and the count `Search` has computed when its three loops are done,
before it jumps to the first result. -/
def searchFlags (find : String → List String → List String) (c : Channels) (term : String) :
    List ChannelItem × Int :=
  flagMatches (find term ((clearSearchResults c.ChannelItems).map (fun chn => chn.Name)))
    (clearSearchResults c.ChannelItems)

/-! # Theorems -/

/-! ## The visible list -/


theorem foldl_append_if (p : ChannelItem → Bool) (l acc : List ChannelItem) :
    l.foldl (fun items chn => if p chn then items ++ [chn] else items) acc
      = acc ++ l.filter p := by
  induction l generalizing acc with
  | nil => simp
  | cons x xs ih =>
    simp only [List.foldl_cons, List.filter_cons]
    by_cases hx : p x = true
    · simp [hx, ih]
    · simp [hx, ih]

theorem ListChannels_eq (c : Channels) :
    ListChannels c =
      if c.UnreadOnly then c.ChannelItems.filter (isPinned c.SelectedChannel)
      else c.ChannelItems := by
  unfold ListChannels
  cases hu : c.UnreadOnly
  · simp
  · have h := foldl_append_if (isPinned c.SelectedChannel) c.ChannelItems []
    simp only [List.nil_append] at h
    simp only [Bool.not_true, Bool.false_eq_true, if_false, if_true]
    exact h

theorem ListChannels_sublist (c : Channels) : List.Sublist (ListChannels c) c.ChannelItems := by
  rw [ListChannels_eq]
  split
  · exact List.filter_sublist _
  · exact List.Sublist.refl _

theorem ListSearchResults_eq (c : Channels) :
    ListSearchResults c = (ListChannels c).filter (fun r => r.IsSearchResult) := by
  unfold ListSearchResults
  have h := foldl_append_if (fun r => r.IsSearchResult) (ListChannels c) []
  simpa using h

/-- C1: `ListChannels` is a function of the state alone. With unread-only off it is
`ChannelItems`; with unread-only on it is the sub-list, in store order, of the records
that are selected, unread or a search result. For records A (read, selected),
B (unread), C (read, not selected), none a search result, the unread-only list is
`[A, B]` and does not contain C. -/
theorem C1_ListChannels_visible (c : Channels) :
    (c.UnreadOnly = false → ListChannels c = c.ChannelItems) ∧
    (c.UnreadOnly = true →
      ListChannels c = c.ChannelItems.filter
        (fun r => r.ID == c.SelectedChannel || r.Notification || r.IsSearchResult) ∧
      List.Sublist (ListChannels c) c.ChannelItems) ∧
    (∀ A B C : ChannelItem,
      c.UnreadOnly = true → c.ChannelItems = [A, B, C] →
      A.ID = c.SelectedChannel → A.Notification = false → B.Notification = true →
      C.Notification = false → C.ID ≠ c.SelectedChannel →
      A.IsSearchResult = false → B.IsSearchResult = false → C.IsSearchResult = false →
      ListChannels c = [A, B] ∧ C ∉ ListChannels c) := by
  refine ⟨?_, ?_, ?_⟩
  · intro hu
    simp [ListChannels_eq, hu]
  · intro hu
    refine ⟨?_, ListChannels_sublist c⟩
    rw [ListChannels_eq]
    simp only [hu, if_true]
    rfl
  · intro A B C hu hl hA hAn hBn hCn hC hAs hBs hCs
    have hlist : ListChannels c = [A, B] := by
      rw [ListChannels_eq]
      simp [hu, hl, List.filter_cons, isPinned, hA, hAn, hBn, hCn, hC, hAs, hBs, hCs]
    refine ⟨hlist, ?_⟩
    rw [hlist]
    intro hmem
    simp only [List.mem_cons, List.mem_singleton, List.not_mem_nil, or_false] at hmem
    rcases hmem with h | h
    · exact hC (by rw [h]; exact hA)
    · rw [h] at hCn
      rw [hCn] at hBn
      exact Bool.noConfusion hBn

/-- C1, at a concrete store: A read and selected, B unread, C read. -/
theorem C1_ListChannels_visible_witness :
    ListChannels
      { ChannelItems :=
          [{ zeroChannelItem with ID := "A" },
           { zeroChannelItem with ID := "B", Notification := true },
           { zeroChannelItem with ID := "C" }]
        CursorPosition := 1, InnerBounds := ⟨1, 6⟩, Offset := 0, SearchPosition := 0
        SelectedChannel := "A", UnreadOnly := true }
      = [{ zeroChannelItem with ID := "A" },
         { zeroChannelItem with ID := "B", Notification := true }] :=
  ((C1_ListChannels_visible _).2.2 _ _ _ rfl rfl rfl rfl rfl rfl (by decide) rfl rfl rfl).1

/-! ## Lookup by id -/

theorem findChannelFrom_ok (l : List ChannelItem) (id : String) (i : Nat) :
    (findChannelFrom l id i).2 = true ↔ id ∈ ids l := by
  induction l generalizing i with
  | nil => simp [findChannelFrom, ids]
  | cons x xs ih =>
    unfold findChannelFrom
    by_cases hx : x.ID = id
    · simp [hx, ids]
    · have hx2 : ¬ id = x.ID := fun h => hx h.symm
      simp only [beq_iff_eq, hx, if_false, ih]
      simp [ids, hx2]

theorem FindChannel_ok (c : Channels) (id : String) :
    (FindChannel c id).2 = true ↔ id ∈ ids c.ChannelItems :=
  findChannelFrom_ok _ _ _

theorem mem_ids_of_mem {l : List ChannelItem} {r : ChannelItem} (h : r ∈ l) : r.ID ∈ ids l :=
  List.mem_map_of_mem _ h

theorem mem_ids_iff {l : List ChannelItem} {id : String} :
    id ∈ ids l ↔ ∃ r ∈ l, r.ID = id := by
  simp [ids]

/-! ## What scrolling and relocation leave alone -/

theorem OnlyScroll.unchanged (c : Channels) : OnlyScroll c c := rfl

theorem OnlyScroll.andThen {a b c : Channels} (h1 : OnlyScroll a b) (h2 : OnlyScroll b c) :
    OnlyScroll a c := by
  unfold OnlyScroll at *
  rw [h2, h1]

theorem OnlyScroll.fields {c c1 : Channels} (h : OnlyScroll c c1) :
    c1.ChannelItems = c.ChannelItems ∧ c1.UnreadOnly = c.UnreadOnly ∧
    c1.InnerBounds = c.InnerBounds ∧ c1.SearchPosition = c.SearchPosition ∧
    c1.SelectedChannel = c.SelectedChannel := by
  unfold OnlyScroll at h
  rw [h]
  exact ⟨rfl, rfl, rfl, rfl, rfl⟩

theorem ScrollUp_onlyScroll (c : Channels) : OnlyScroll c (ScrollUp c) := by
  unfold ScrollUp OnlyScroll
  split
  · split <;> rfl
  · rfl

theorem ScrollDown_onlyScroll (c : Channels) : OnlyScroll c (ScrollDown c) := by
  unfold ScrollDown OnlyScroll
  split
  · split <;> rfl
  · rfl

theorem locateCursorLoop_onlyScroll (l : List ChannelItem) (i : Nat) (c : Channels) :
    OnlyScroll c (locateCursorLoop l i c) := by
  induction l generalizing i c with
  | nil => exact OnlyScroll.unchanged c
  | cons x xs ih =>
    have hs : OnlyScroll c (ScrollUp (ScrollDown c)) :=
      (ScrollDown_onlyScroll c).andThen (ScrollUp_onlyScroll _)
    unfold locateCursorLoop
    simp only
    split
    · exact hs.andThen rfl
    · exact hs.andThen (ih _ _)

theorem ListChannels_congr {c c1 : Channels} (h1 : c1.ChannelItems = c.ChannelItems)
    (h2 : c1.UnreadOnly = c.UnreadOnly) (h3 : c1.SelectedChannel = c.SelectedChannel) :
    ListChannels c1 = ListChannels c := by
  rw [ListChannels_eq, ListChannels_eq, h1, h2, h3]

theorem relocate_onlyScroll (c : Channels) : OnlyScroll c (relocate c) := by
  have h1 : OnlyScroll c { c with CursorPosition := c.InnerBounds.MinY } := rfl
  exact h1.andThen (locateCursorLoop_onlyScroll _ _ _)

theorem OnlyScroll.reselected {c c1 : Channels} (h : OnlyScroll c c1) : Reselected c c1 := by
  obtain ⟨h1, h2, h3, h4, h5⟩ := h.fields
  exact ⟨h1, h2, h3, h4, Or.inl h5⟩

theorem Reselected.unmoved (c : Channels) : Reselected c c :=
  ⟨rfl, rfl, rfl, rfl, Or.inl rfl⟩

theorem Reselected.followedBy {a b c : Channels} (h1 : Reselected a b) (h2 : Reselected b c) :
    Reselected a c := by
  obtain ⟨a1, a2, a3, a4, a5⟩ := h1
  obtain ⟨b1, b2, b3, b4, b5⟩ := h2
  refine ⟨b1.trans a1, b2.trans a2, b3.trans a3, b4.trans a4, ?_⟩
  rcases b5 with h | h
  · rw [h]; exact a5
  · rw [a1] at h; exact Or.inr h

theorem selectIfFound_reselected (c : Channels) (id : String) :
    Reselected c (selectIfFound c id) := by
  unfold selectIfFound
  split
  · rename_i h
    exact ⟨rfl, rfl, rfl, rfl, Or.inr ((FindChannel_ok c id).1 h)⟩
  · exact Reselected.unmoved c

/-! ## Unfolding the mutual recursion -/

theorem SetSelectedChannel_succ (fuel : Nat) (c : Channels) (id : String) :
    SetSelectedChannel (fuel + 1) c id = locateCursor fuel (selectIfFound c id) := by
  simp only [SetSelectedChannel, selectIfFound]

theorem locateCursor_succ (fuel : Nat) (c : Channels) :
    locateCursor (fuel + 1) c =
      match ListChannels c with
      | first :: _ =>
        if c.SelectedChannel = "" then
          SetSelectedChannel fuel { c with CursorPosition := c.InnerBounds.MinY } first.ID
        else .ok (relocate c)
      | [] => .ok (relocate c) := by
  have hl : ListChannels { c with CursorPosition := c.InnerBounds.MinY } = ListChannels c :=
    ListChannels_congr rfl rfl rfl
  simp only [locateCursor, relocate, hl]
  cases ListChannels c with
  | nil => rfl
  | cons x xs => simp

theorem locateCursor_of_selected (fuel : Nat) (c : Channels) (h : c.SelectedChannel ≠ "") :
    locateCursor (fuel + 1) c = .ok (relocate c) := by
  rw [locateCursor_succ]
  cases ListChannels c with
  | nil => rfl
  | cons x xs => simp [h]

theorem locateCursor_of_empty (fuel : Nat) (c : Channels) (h : ListChannels c = []) :
    locateCursor (fuel + 1) c = .ok (relocate c) := by
  rw [locateCursor_succ, h]

theorem relocation_reselected (fuel : Nat) :
    (∀ c c1, locateCursor fuel c = .ok c1 → Reselected c c1) ∧
    (∀ c id c1, SetSelectedChannel fuel c id = .ok c1 → Reselected c c1) := by
  induction fuel with
  | zero =>
    constructor
    · intro c c1 h; simp [locateCursor] at h
    · intro c id c1 h; simp [SetSelectedChannel] at h
  | succ n ih =>
    constructor
    · intro c c1 h
      rw [locateCursor_succ] at h
      split at h
      · split at h
        · have h1 : Reselected c { c with CursorPosition := c.InnerBounds.MinY } :=
            ⟨rfl, rfl, rfl, rfl, Or.inl rfl⟩
          exact h1.followedBy (ih.2 _ _ _ h)
        · cases h
          exact (relocate_onlyScroll c).reselected
      · cases h
        exact (relocate_onlyScroll c).reselected
    · intro c id c1 h
      rw [SetSelectedChannel_succ] at h
      exact (selectIfFound_reselected c id).followedBy (ih.1 _ _ h)

theorem locateCursor_reselected {fuel : Nat} {c c1 : Channels}
    (h : locateCursor fuel c = .ok c1) : Reselected c c1 :=
  (relocation_reselected fuel).1 c c1 h

theorem SetSelectedChannel_reselected {fuel : Nat} {c c1 : Channels} {id : String}
    (h : SetSelectedChannel fuel c id = .ok c1) : Reselected c c1 :=
  (relocation_reselected fuel).2 c id c1 h

/-! ## Every operation but `SetChannels` keeps the record ids -/

theorem Reselected.frame {c c1 : Channels} (h : Reselected c c1) : Frame c c1 := by
  obtain ⟨h1, h2, h3, _, h5⟩ := h
  exact ⟨h2, h3, by rw [h1], h5⟩

theorem Frame.refl (c : Channels) : Frame c c :=
  ⟨rfl, rfl, rfl, Or.inl rfl⟩

theorem Frame.trans {a b c : Channels} (h1 : Frame a b) (h2 : Frame b c) : Frame a c := by
  obtain ⟨a1, a2, a3, a4⟩ := h1
  obtain ⟨b1, b2, b3, b4⟩ := h2
  refine ⟨b1.trans a1, b2.trans a2, b3.trans a3, ?_⟩
  rcases b4 with h | h
  · rw [h]; exact a4
  · rw [a3] at h; exact Or.inr h

theorem Frame.resolves {c c1 : Channels} (h : Frame c c1) (hc : Resolves c) : Resolves c1 := by
  obtain ⟨_, _, h3, h4⟩ := h
  intro hne
  have hne0 : c.ChannelItems ≠ [] := by
    intro h0
    rw [h0] at h3
    cases hl : c1.ChannelItems with
    | nil => exact hne hl
    | cons x xs => rw [hl] at h3; simp [ids] at h3
  rw [h3]
  rcases h4 with h | h
  · rw [h]; exact hc hne0
  · exact h

theorem ids_updateAt (l : List ChannelItem) (i : Nat) (f : ChannelItem → ChannelItem)
    (hf : ∀ x, (f x).ID = x.ID) : ids (updateAt l i f) = ids l := by
  induction l generalizing i with
  | nil => rfl
  | cons x xs ih =>
    cases i with
    | zero => simp [updateAt, ids, hf]
    | succ n =>
      have h := ih n
      simp only [ids] at h
      simp [updateAt, ids, h]

theorem MarkAsRead_frame (c : Channels) (id : String) : Frame c (MarkAsRead c id) := by
  unfold MarkAsRead
  simp only
  split
  · exact ⟨rfl, rfl, ids_updateAt _ _ _ (fun _ => rfl), Or.inl rfl⟩
  · exact Frame.refl c

theorem MarkAsUnread_frame (c : Channels) (id : String) : Frame c (MarkAsUnread c id) := by
  unfold MarkAsUnread
  simp only
  split
  · exact ⟨rfl, rfl, ids_updateAt _ _ _ (fun _ => rfl), Or.inl rfl⟩
  · exact Frame.refl c

theorem SetPresence_frame (c : Channels) (id p : String) : Frame c (SetPresence c id p) := by
  unfold SetPresence
  simp only
  split
  · exact ⟨rfl, rfl, ids_updateAt _ _ _ (fun _ => rfl), Or.inl rfl⟩
  · exact Frame.refl c

theorem MoveCursorUp_reselected {fuel : Nat} {c : Channels} {r : Channels × ChannelItem × Bool}
    (h : MoveCursorUp fuel c = .ok r) : Reselected c r.1 := by
  unfold MoveCursorUp at h
  simp only at h
  split at h
  · cases hs : SetSelectedChannel fuel c (getPreviousItem c).1.ID with
    | error e => rw [hs] at h; cases h
    | ok c1 =>
      rw [hs] at h
      cases h
      exact (SetSelectedChannel_reselected hs).followedBy (ScrollUp_onlyScroll c1).reselected
  · cases h
    exact Reselected.unmoved c

theorem MoveCursorDown_reselected {fuel : Nat} {c : Channels}
    {r : Channels × ChannelItem × Bool}
    (h : MoveCursorDown fuel c = .ok r) : Reselected c r.1 := by
  unfold MoveCursorDown at h
  simp only at h
  split at h
  · cases hs : SetSelectedChannel fuel c (getNextItem c).1.ID with
    | error e => rw [hs] at h; cases h
    | ok c1 =>
      rw [hs] at h
      cases h
      exact (SetSelectedChannel_reselected hs).followedBy (ScrollDown_onlyScroll c1).reselected
  · cases h
    exact Reselected.unmoved c

theorem MoveCursorTop_reselected {fuel : Nat} {c c1 : Channels}
    (h : MoveCursorTop fuel c = .ok c1) : Reselected c c1 := by
  unfold MoveCursorTop at h
  split at h
  · rename_i first rest hl
    cases hs : SetSelectedChannel fuel c first.ID with
    | error e => rw [hs] at h; cases h
    | ok c2 =>
      rw [hs] at h
      cases h
      have h2 : OnlyScroll c2 { c2 with Offset := 0 } := rfl
      exact (SetSelectedChannel_reselected hs).followedBy h2.reselected
  · cases h
    have h2 : OnlyScroll c { c with Offset := 0 } := rfl
    exact h2.reselected

theorem MoveCursorBottom_reselected {fuel : Nat} {c c1 : Channels}
    (h : MoveCursorBottom fuel c = .ok c1) : Reselected c c1 := by
  unfold MoveCursorBottom at h
  simp only at h
  split at h
  · rename_i last hl
    cases hs : SetSelectedChannel fuel c last.ID with
    | error e => rw [hs] at h; cases h
    | ok c2 =>
      rw [hs] at h
      simp only [bind, Except.bind] at h
      split at h
      · cases h
        have h2 : OnlyScroll c2 { c2 with Offset := 0 } := rfl
        exact (SetSelectedChannel_reselected hs).followedBy h2.reselected
      · cases h
        have h2 : OnlyScroll c2
            { c2 with Offset := ((ListChannels c).length : Int) - (c2.InnerBounds.MaxY - 1) } :=
          rfl
        exact (SetSelectedChannel_reselected hs).followedBy h2.reselected
  · cases h
    exact Reselected.unmoved c

theorem bind_eq_ok {α β : Type} {x : Except Fault α} {f : α → Except Fault β} {b : β}
    (h : (x >>= f) = .ok b) : ∃ a, x = .ok a ∧ f a = .ok b := by
  cases x with
  | error e => cases h
  | ok a => exact ⟨a, rfl, h⟩

theorem SetSelectedChannel_offset_reselected {fuel : Nat} {c c1 : Channels} {id : String}
    {o : Int} (h : SetSelectedChannel fuel { c with Offset := o } id = .ok c1) :
    Reselected c c1 := by
  have h2 : OnlyScroll c { c with Offset := o } := rfl
  exact h2.reselected.followedBy (SetSelectedChannel_reselected h)

theorem GotoPosition_reselected {fuel : Nat} {c : Channels} {newPos : Int}
    {r : Channels × Bool} (h : GotoPosition fuel c newPos = .ok r) : Reselected c r.1 := by
  unfold GotoPosition at h
  simp only at h
  split at h
  · cases h; exact Reselected.unmoved c
  · split at h
    · cases h
    · split at h
      · cases h
      · split at h
        · cases h; exact Reselected.unmoved c
        · split at h
          · cases h
          · split at h
            · obtain ⟨c2, hs, hr⟩ := bind_eq_ok h
              cases hr
              exact SetSelectedChannel_offset_reselected hs
            · split at h
              · obtain ⟨c2, hs, hr⟩ := bind_eq_ok h
                cases hr
                exact SetSelectedChannel_offset_reselected hs
              · obtain ⟨c2, hs, hr⟩ := bind_eq_ok h
                cases hr
                exact SetSelectedChannel_reselected hs

theorem ids_flagFirstNamed (l : List ChannelItem) (m : String) :
    ids (flagFirstNamed l m).1 = ids l := by
  induction l with
  | nil => rfl
  | cons x xs ih =>
    unfold flagFirstNamed
    split
    · simp [ids]
    · simp only [ids] at ih
      simp [ids, ih]

theorem ids_flag_fold (matched : List String) (acc : List ChannelItem × Int) :
    ids (matched.foldl
      (fun (acc : List ChannelItem × Int) m =>
        let r := flagFirstNamed acc.1 m
        if r.2 then (r.1, acc.2 + 1) else acc) acc).1 = ids acc.1 := by
  induction matched generalizing acc with
  | nil => rfl
  | cons m ms ih =>
    simp only [List.foldl_cons]
    rw [ih]
    split
    · exact ids_flagFirstNamed _ _
    · rfl

theorem ids_flagMatches (matched : List String) (items : List ChannelItem) :
    ids (flagMatches matched items).1 = ids items :=
  ids_flag_fold matched (items, 0)

theorem ids_clearSearchResults (l : List ChannelItem) : ids (clearSearchResults l) = ids l := by
  induction l with
  | nil => rfl
  | cons x xs ih =>
    simp only [ids, clearSearchResults] at ih
    simp only [ids, clearSearchResults, List.map_cons]
    congr 1
    split <;> rfl

theorem Frame.of_items {c : Channels} {l : List ChannelItem} (h : ids l = ids c.ChannelItems) :
    Frame c { c with ChannelItems := l } :=
  ⟨rfl, rfl, h, Or.inl rfl⟩

theorem Search_frame {find : String → List String → List String} {fuel : Nat} {c : Channels}
    {term : String} {r : Channels × Int} (h : Search find fuel c term = .ok r) :
    Frame c r.1 := by
  unfold Search at h
  simp only at h
  have hids : ∀ m, ids (flagMatches m (clearSearchResults c.ChannelItems)).1
      = ids c.ChannelItems :=
    fun m => (ids_flagMatches m _).trans (ids_clearSearchResults c.ChannelItems)
  split at h
  · obtain ⟨g, hg, hr⟩ := bind_eq_ok h
    cases hr
    have h2 := (GotoPosition_reselected hg).frame
    have h3 : Frame g.1 { g.1 with SearchPosition := 0 } := ⟨rfl, rfl, rfl, Or.inl rfl⟩
    exact ((Frame.of_items (hids _)).trans h2).trans h3
  · cases h
    exact Frame.of_items (hids _)

theorem SearchNext_frame {fuel : Nat} {c c1 : Channels}
    (h : SearchNext fuel c = .ok c1) : Frame c c1 := by
  unfold SearchNext at h
  obtain ⟨g, hg, hr⟩ := bind_eq_ok h
  have h2 := (GotoPosition_reselected hg).frame
  split at hr
  · cases hr
    have h3 : Frame g.1 { g.1 with SearchPosition := c.SearchPosition + 1 } :=
      ⟨rfl, rfl, rfl, Or.inl rfl⟩
    exact h2.trans h3
  · cases hr
    exact h2

theorem SearchPrev_frame {fuel : Nat} {c c1 : Channels}
    (h : SearchPrev fuel c = .ok c1) : Frame c c1 := by
  unfold SearchPrev at h
  obtain ⟨g, hg, hr⟩ := bind_eq_ok h
  have h2 := (GotoPosition_reselected hg).frame
  split at hr
  · cases hr
    have h3 : Frame g.1 { g.1 with SearchPosition := c.SearchPosition - 1 } :=
      ⟨rfl, rfl, rfl, Or.inl rfl⟩
    exact h2.trans h3
  · cases hr
    exact h2

theorem Jump_frame {fuel : Nat} {c c1 : Channels} (h : Jump fuel c = .ok c1) : Frame c c1 := by
  unfold Jump at h
  split at h
  · obtain ⟨g, hg, hr⟩ := bind_eq_ok h
    cases hr
    exact (GotoPosition_reselected hg).frame
  · cases h
    exact Frame.refl c

theorem map_eq_ok {α β : Type} {x : Except Fault α} {f : α → β} {b : β}
    (h : x.map f = .ok b) : ∃ a, x = .ok a ∧ f a = b := by
  cases x with
  | error e => cases h
  | ok a => exact ⟨a, rfl, by cases h; rfl⟩

/-- Every operation other than `SetChannels` keeps mode, bounds and record ids, and
selects nothing but ids of stored records. -/
theorem Op.run_frame {find : String → List String → List String} {fuel : Nat} {op : Op}
    {c c1 : Channels} (hop : ∀ l, op ≠ Op.SetChannels l) (h : op.run find fuel c = .ok c1) :
    Frame c c1 := by
  cases op with
  | SetChannels l => exact absurd rfl (hop l)
  | MarkAsRead id => cases h; exact MarkAsRead_frame c id
  | MarkAsUnread id => cases h; exact MarkAsUnread_frame c id
  | SetPresence id p => cases h; exact SetPresence_frame c id p
  | SetSelectedChannel id => exact (SetSelectedChannel_reselected h).frame
  | MoveCursorUp =>
    obtain ⟨r, hr, he⟩ := map_eq_ok h
    cases he
    exact (MoveCursorUp_reselected hr).frame
  | MoveCursorDown =>
    obtain ⟨r, hr, he⟩ := map_eq_ok h
    cases he
    exact (MoveCursorDown_reselected hr).frame
  | MoveCursorTop => exact (MoveCursorTop_reselected h).frame
  | MoveCursorBottom => exact (MoveCursorBottom_reselected h).frame
  | ScrollUp => cases h; exact (ScrollUp_onlyScroll c).reselected.frame
  | ScrollDown => cases h; exact (ScrollDown_onlyScroll c).reselected.frame
  | Search term =>
    obtain ⟨r, hr, he⟩ := map_eq_ok h
    cases he
    exact Search_frame hr
  | SearchNext => exact SearchNext_frame h
  | SearchPrev => exact SearchPrev_frame h
  | GotoPosition newPos =>
    obtain ⟨r, hr, he⟩ := map_eq_ok h
    cases he
    exact (GotoPosition_reselected hr).frame
  | Jump => exact Jump_frame h
  | locateCursor => exact (locateCursor_reselected h).frame

/-- What `SetChannels` leaves: the given store, the same mode and bounds, and with
unread-only off and a non-empty store a selection that is the id of a stored record. -/
theorem SetChannels_result {fuel : Nat} {c c1 : Channels} {l : List ChannelItem}
    (h : SetChannels fuel c l = .ok c1) :
    c1.ChannelItems = l ∧ c1.UnreadOnly = c.UnreadOnly ∧ c1.InnerBounds = c.InnerBounds ∧
    (c.UnreadOnly = false → l ≠ [] → c1.SelectedChannel ∈ ids l) := by
  unfold SetChannels at h
  obtain ⟨c2, h2, hr⟩ := bind_eq_ok h
  obtain ⟨a1, a2, a3, _, _⟩ := locateCursor_reselected h2
  simp only at a1 a2 a3
  split at hr
  · rename_i first rest hl
    split at hr
    · cases fuel with
      | zero => simp [SetSelectedChannel] at hr
      | succ n =>
        rw [SetSelectedChannel_succ] at hr
        obtain ⟨b1, b2, b3, _, b5⟩ := locateCursor_reselected hr
        have hmem : first.ID ∈ ids c2.ChannelItems := by
          rw [hl]; simp [ids]
        have hsel : (selectIfFound c2 first.ID).SelectedChannel = first.ID := by
          unfold selectIfFound
          rw [(FindChannel_ok c2 first.ID).2 hmem]
          rfl
        have hitems : (selectIfFound c2 first.ID).ChannelItems = c2.ChannelItems :=
          (selectIfFound_reselected c2 first.ID).1
        refine ⟨by rw [b1, hitems, a1], ?_, ?_, ?_⟩
        · rw [b2, (selectIfFound_reselected c2 first.ID).2.1, a2]
        · rw [b3, (selectIfFound_reselected c2 first.ID).2.2.1, a3]
        · intro _ _
          rw [← a1, ← hitems]
          rcases b5 with hb | hb
          · rw [hb, hsel, hitems]; exact hmem
          · exact hb
    · cases hr
      rename_i hu
      refine ⟨a1, a2, a3, ?_⟩
      intro hu2
      rw [a2, hu2] at hu
      simp at hu
  · cases hr
    rename_i hl
    refine ⟨a1, a2, a3, ?_⟩
    intro _ hne
    rw [a1] at hl
    exact absurd hl hne

theorem Op.run_unreadOnly {find : String → List String → List String} {fuel : Nat} {op : Op}
    {c c1 : Channels} (h : op.run find fuel c = .ok c1) : c1.UnreadOnly = c.UnreadOnly := by
  cases op with
  | SetChannels l => exact (SetChannels_result h).2.1
  | _ => exact (Op.run_frame (by intro l hl; cases hl) h).1

theorem Reachable.unreadOnly {find : String → List String → List String} {init c : Channels}
    (h : Reachable find init c) : c.UnreadOnly = init.UnreadOnly := by
  induction h with
  | init => rfl
  | step op fuel _ hrun ih => rw [Op.run_unreadOnly hrun, ih]

/-- With unread-only off, every reachable state resolves its selection. -/
theorem Reachable.selection_resolves {find : String → List String → List String} {init c : Channels}
    (hu : init.UnreadOnly = false) (h0 : Resolves init) (h : Reachable find init c) :
    Resolves c := by
  induction h with
  | init => exact h0
  | step op fuel hreach hrun ih =>
    rename_i c2 c3
    cases op with
    | SetChannels l =>
      obtain ⟨a1, _, _, a4⟩ := SetChannels_result hrun
      intro hne
      rw [a1] at hne ⊢
      exact a4 (by rw [hreach.unreadOnly, hu]) hne
    | _ => exact (Op.run_frame (by intro l hl; cases hl) hrun).resolves ih

theorem Reachable.runOps {find : String → List String → List String} {init : Channels}
    (fuel : Nat) (ops : List Op) {c c1 : Channels} (h : Reachable find init c)
    (hr : SlackTerm.runOps find fuel ops c = .ok c1) : Reachable find init c1 := by
  induction ops generalizing c with
  | nil => cases hr; exact h
  | cons op rest ih =>
    obtain ⟨c2, h2, h3⟩ := bind_eq_ok hr
    exact ih (Reachable.step op fuel h h2) h3

theorem mem_ListChannels_of_selected {c : Channels} {r : ChannelItem}
    (hr : r ∈ c.ChannelItems) (hid : r.ID = c.SelectedChannel) : r ∈ ListChannels c := by
  rw [ListChannels_eq]
  split
  · exact List.mem_filter.2 ⟨hr, by simp [isPinned, hid]⟩
  · exact hr

/-- C2: in every state reached from `CreateChannelsComponent(h, false)` by the
operations of the component, a non-empty store holds a record whose id is
`SelectedChannel`, so `FindChannel(SelectedChannel)` succeeds. -/
theorem C2_no_dangling_selection (find : String → List String → List String)
    (height : Int) (inner : Rectangle) (c : Channels)
    (hreach : Reachable find (CreateChannelsComponent height false inner) c)
    (hne : c.ChannelItems ≠ []) :
    (FindChannel c c.SelectedChannel).2 = true ∧
      ∃ r ∈ c.ChannelItems, r.ID = c.SelectedChannel := by
  have h0 : Resolves (CreateChannelsComponent height false inner) := fun h => absurd rfl h
  have hres : c.SelectedChannel ∈ ids c.ChannelItems := Reachable.selection_resolves rfl h0 hreach hne
  exact ⟨(FindChannel_ok c _).2 hres, mem_ids_iff.1 hres⟩

/-- C2 at the state reached by `SetChannels([a, b])`. -/
theorem C2_no_dangling_selection_witness :
    Reachable findNothing (CreateChannelsComponent 7 false ⟨1, 6⟩)
        (listing [item "a", item "b"] "a" 0) ∧
      (listing [item "a", item "b"] "a" 0).ChannelItems ≠ [] ∧
      (FindChannel (listing [item "a", item "b"] "a" 0) "a").2 = true ∧
      ∃ r ∈ [item "a", item "b"], r.ID = "a" :=
  have hreach : Reachable findNothing (CreateChannelsComponent 7 false ⟨1, 6⟩)
      (listing [item "a", item "b"] "a" 0) :=
    Reachable.step (Op.SetChannels [item "a", item "b"]) 4 Reachable.init rfl
  ⟨hreach, by simp [listing],
    C2_no_dangling_selection findNothing 7 ⟨1, 6⟩ _ hreach (by simp [listing])⟩

/-- C4 as stated fails. With unread-only off, `SetChannels([a])` followed by
`SetChannels([])` leaves `a` selected over an empty list. With unread-only on,
`SetChannels([a])` followed by `SetChannels([b])`, both unread, leaves `a` selected
while the visible list is `[b]`. -/
theorem C4_selection_pinned_counterexample :
    (∃ c, Reachable findNothing (fresh false) c ∧ c.SelectedChannel = "a" ∧
      ListChannels c = []) ∧
    (∃ c, Reachable findNothing (fresh true) c ∧ c.SelectedChannel = "a" ∧
      ListChannels c = [unread "b"] ∧ ¬ ∃ r ∈ ListChannels c, r.ID = c.SelectedChannel) := by
  constructor
  · refine ⟨listing [] "a" 0, ?_, rfl, rfl⟩
    exact Reachable.runOps 4 [.SetChannels [item "a"], .SetChannels []] Reachable.init rfl
  · refine ⟨{ listing [unread "b"] "a" 0 with UnreadOnly := true }, ?_, rfl, rfl, ?_⟩
    · exact Reachable.runOps 4 [.SetChannels [unread "a"], .SetChannels [unread "b"]]
        Reachable.init rfl
    · have hl : ListChannels { listing [unread "b"] "a" 0 with UnreadOnly := true }
          = [unread "b"] := rfl
      rw [hl]
      simp [unread, item, listing]

/-- C4, amended: in every state reached from the constructor, in either mode, if
`SelectedChannel` is the id of a stored record then `ListChannels()` contains a record
with that id; when the component was created with unread-only off and the store is
non-empty this is always so. -/
theorem C4_selection_pinned (find : String → List String → List String)
    (height : Int) (inner : Rectangle) (unreadOnly : Bool) (c : Channels)
    (hreach : Reachable find (CreateChannelsComponent height unreadOnly inner) c) :
    ((∃ r ∈ c.ChannelItems, r.ID = c.SelectedChannel) →
      ∃ r ∈ ListChannels c, r.ID = c.SelectedChannel) ∧
    (unreadOnly = false → c.ChannelItems ≠ [] →
      ∃ r ∈ ListChannels c, r.ID = c.SelectedChannel) := by
  have hpin : (∃ r ∈ c.ChannelItems, r.ID = c.SelectedChannel) →
      ∃ r ∈ ListChannels c, r.ID = c.SelectedChannel := by
    rintro ⟨r, hr, hid⟩
    exact ⟨r, mem_ListChannels_of_selected hr hid, hid⟩
  refine ⟨hpin, ?_⟩
  intro hu hne
  subst hu
  have h0 : Resolves (CreateChannelsComponent height false inner) := fun h => absurd rfl h
  exact hpin (mem_ids_iff.1 (Reachable.selection_resolves rfl h0 hreach hne))

/-- C4 (amended) in unread-only mode, at the state reached by `SetChannels([a, b])`
with `a` read and `b` unread: `b` is selected and listed. -/
theorem C4_selection_pinned_witness :
    Reachable findNothing (CreateChannelsComponent 7 true ⟨1, 6⟩)
        { listing [item "a", unread "b"] "b" 0 with UnreadOnly := true } ∧
      ∃ r ∈ ListChannels { listing [item "a", unread "b"] "b" 0 with UnreadOnly := true },
        r.ID = "b" :=
  have hreach : Reachable findNothing (CreateChannelsComponent 7 true ⟨1, 6⟩)
      { listing [item "a", unread "b"] "b" 0 with UnreadOnly := true } :=
    Reachable.step (Op.SetChannels [item "a", unread "b"]) 4 Reachable.init rfl
  ⟨hreach, (C4_selection_pinned findNothing 7 ⟨1, 6⟩ true _ hreach).1
    ⟨unread "b", by simp [listing], rfl⟩⟩

/-! ## The code at inputs where it leaves the specification -/

/-- C3, the code at a failing input: in unread-only mode, `SetChannels` with ten read
records followed by `Search("c9")` returns with `Offset = 5` although the visible list
holds the single record `c9` and the viewport has five rows, so the upper bound
`max(0, len(visible) - viewportHeight)` is 0. -/
theorem C3_offset_leaves_range :
    runOps findExact 4 [.SetChannels tenItems, .Search "c9"] (fresh true)
      = .ok (searched (tenItems.dropLast ++ [flagged "c9"]) 5) ∧
    ListChannels (searched (tenItems.dropLast ++ [flagged "c9"]) 5) = [flagged "c9"] ∧
    (searched (tenItems.dropLast ++ [flagged "c9"]) 5).Offset = 5 ∧
    ¬ ((5 : Int) ≤ max 0 ((([flagged "c9"] : List ChannelItem).length : Int) - (6 - 1))) :=
  ⟨rfl, rfl, rfl, by decide⟩

/-- C5, the code at a failing input: in the state reached in unread-only mode by
`SetChannels` (two unread records, then ten read ones) and `Search("c9")`, where
`Offset = 5`, relocating once gives `Offset = 3` and relocating that state again gives
`Offset = 1`. -/
theorem C5_locateCursor_not_idempotent :
    runOps findExact 4 [.SetChannels ([unread "u1", unread "u2"] ++ tenItems), .Search "c9"]
        (fresh true) = .ok (searched unreadThenTen 5) ∧
    locateCursor 4 (searched unreadThenTen 5) = .ok (searched unreadThenTen 3) ∧
    locateCursor 4 (searched unreadThenTen 3) = .ok (searched unreadThenTen 1) ∧
    (searched unreadThenTen 1).Offset ≠ (searched unreadThenTen 3).Offset :=
  ⟨rfl, rfl, rfl, by decide⟩

/-- C6, the code at the input of the claim: five rows (rows 1 to 5), ten records,
`Offset = 3`, the record at position 3 selected and the cursor on the top row.
`MoveCursorUp` succeeds and selects `c2`, but leaves `Offset = 0` and the cursor on
row 3, not `Offset = 2` with the cursor on the top row 1. -/
theorem C6_moveUp_offset_collapses :
    (listing tenItems "c3" 3).CursorPosition = (listing tenItems "c3" 3).InnerBounds.MinY ∧
    MoveCursorUp 4 (listing tenItems "c3" 3) =
      .ok ({ listing tenItems "c2" 0 with CursorPosition := 3 }, item "c2", true) :=
  ⟨rfl, rfl⟩

/-- C10, the code at a failing input: with one search result and `SearchPosition = 0`,
`SearchNext` returns with the state unchanged, but `SearchPrev` calls
`GotoPosition(-1)`, which passes the range test and indexes `results[-1]`: a run-time
panic instead of a return with `ok = false`. -/
theorem C10_searchPrev_panics :
    ListSearchResults (listing [flagged "a"] "a" 0) = [flagged "a"] ∧
    (listing [flagged "a"] "a" 0).SearchPosition = 0 ∧
    SearchNext 4 (listing [flagged "a"] "a" 0) = .ok (listing [flagged "a"] "a" 0) ∧
    SearchPrev 4 (listing [flagged "a"] "a" 0) = .error .indexOutOfRange ∧
    GotoPosition 4 (listing [flagged "a"] "a" 0) (-1) = .error .indexOutOfRange :=
  ⟨rfl, rfl, rfl, rfl, rfl⟩

/-! ## Neighbours in the visible list -/

theorem getPreviousItemLoop_skip (x : ChannelItem) (xs : List ChannelItem) (sel : String)
    (prev : ChannelItem) (hx : x.ID ≠ sel) :
    getPreviousItemLoop (x :: xs) sel prev = getPreviousItemLoop xs sel x := by
  simp [getPreviousItemLoop, hx]

theorem getNextItemLoop_skip (x : ChannelItem) (xs : List ChannelItem) (sel : String)
    (next : ChannelItem) (hx : x.ID ≠ sel) :
    getNextItemLoop (x :: xs) sel next = getNextItemLoop xs sel x := by
  simp [getNextItemLoop, hx]

theorem getPreviousItemLoop_none (l : List ChannelItem) (sel : String) (prev : ChannelItem)
    (h : ∀ x ∈ l, x.ID ≠ sel) : (getPreviousItemLoop l sel prev).2 = false := by
  induction l generalizing prev with
  | nil => rfl
  | cons x xs ih =>
    rw [getPreviousItemLoop_skip _ _ _ _ (h x (List.mem_cons_self _ _))]
    exact ih _ (fun y hy => h y (List.mem_cons_of_mem _ hy))

theorem getNextItemLoop_none (l : List ChannelItem) (sel : String) (next : ChannelItem)
    (h : ∀ x ∈ l, x.ID ≠ sel) : (getNextItemLoop l sel next).2.2 = false := by
  induction l generalizing next with
  | nil => rfl
  | cons x xs ih =>
    rw [getNextItemLoop_skip _ _ _ _ (h x (List.mem_cons_self _ _))]
    exact ih _ (fun y hy => h y (List.mem_cons_of_mem _ hy))

theorem getPreviousItemLoop_found (pre post : List ChannelItem) (p s prev : ChannelItem)
    (sel : String) (hpre : ∀ x ∈ pre, x.ID ≠ sel) (hp : p.ID ≠ sel) (hs : s.ID = sel)
    (hne : p.ID ≠ "") :
    getPreviousItemLoop (pre ++ p :: s :: post) sel prev = (p, true) := by
  induction pre generalizing prev with
  | nil =>
    rw [List.nil_append, getPreviousItemLoop_skip _ _ _ _ hp]
    simp [getPreviousItemLoop, hs, hne]
  | cons x xs ih =>
    rw [List.cons_append, getPreviousItemLoop_skip _ _ _ _ (hpre x (List.mem_cons_self _ _))]
    exact ih _ (fun y hy => hpre y (List.mem_cons_of_mem _ hy))

theorem getNextItemLoop_found (pre post : List ChannelItem) (n s next : ChannelItem)
    (sel : String) (hpre : ∀ x ∈ pre, x.ID ≠ sel) (hn : n.ID ≠ sel) (hs : s.ID = sel)
    (hne : n.ID ≠ "") :
    getNextItemLoop (pre ++ n :: s :: post) sel next = (n, post.length, true) := by
  induction pre generalizing next with
  | nil =>
    rw [List.nil_append, getNextItemLoop_skip _ _ _ _ hn]
    simp [getNextItemLoop, hs, hne]
  | cons x xs ih =>
    rw [List.cons_append, getNextItemLoop_skip _ _ _ _ (hpre x (List.mem_cons_self _ _))]
    exact ih _ (fun y hy => hpre y (List.mem_cons_of_mem _ hy))

theorem getPreviousItemLoop_first (r : ChannelItem) (rest : List ChannelItem) (sel : String) :
    getPreviousItemLoop (r :: rest) sel zeroChannelItem = getPreviousItemLoop rest sel r := by
  simp [getPreviousItemLoop, zeroChannelItem]

theorem getNextItemLoop_first (r : ChannelItem) (rest : List ChannelItem) (sel : String) :
    getNextItemLoop (r :: rest) sel zeroChannelItem = getNextItemLoop rest sel r := by
  simp [getNextItemLoop, zeroChannelItem]

/-- Unique ids in the store give unique ids in the visible list. -/
theorem ListChannels_nodup {c : Channels} (h : (ids c.ChannelItems).Nodup) :
    (ids (ListChannels c)).Nodup :=
  List.Nodup.sublist ((ListChannels_sublist c).map _) h

theorem ids_ne_of_nodup_cons {r : ChannelItem} {rest : List ChannelItem}
    (h : (ids (r :: rest)).Nodup) : ∀ x ∈ rest, x.ID ≠ r.ID := by
  intro x hx he
  have h1 : r.ID ∉ ids rest := (List.nodup_cons.1 h).1
  exact h1 (he ▸ mem_ids_of_mem hx)

/-- C7: with unique record ids, `MoveCursorUp` on the first visible record and
`MoveCursorDown` on the last visible record return `ok = false` and leave the state
as it was. -/
theorem C7_edge_moves_fail (fuel : Nat) (c : Channels)
    (huniq : (c.ChannelItems.map (fun r => r.ID)).Nodup) :
    (∀ r rest, ListChannels c = r :: rest → r.ID = c.SelectedChannel →
      ∃ hovering, MoveCursorUp fuel c = .ok (c, hovering, false)) ∧
    (∀ r front, ListChannels c = front ++ [r] → r.ID = c.SelectedChannel →
      ∃ hovering, MoveCursorDown fuel c = .ok (c, hovering, false)) := by
  have hnd := ListChannels_nodup (c := c) huniq
  constructor
  · intro r rest hl hsel
    rw [hl] at hnd
    have hrest : ∀ x ∈ rest, x.ID ≠ c.SelectedChannel := by
      rw [← hsel]; exact ids_ne_of_nodup_cons hnd
    have hno : (getPreviousItem c).2 = false := by
      unfold getPreviousItem
      rw [hl, getPreviousItemLoop_first]
      exact getPreviousItemLoop_none _ _ _ hrest
    refine ⟨(getPreviousItem c).1, ?_⟩
    unfold MoveCursorUp
    simp only [hno, Bool.false_eq_true, if_false]
    rfl
  · intro r front hl hsel
    rw [hl] at hnd
    have hnd2 : (ids (r :: front.reverse)).Nodup := by
      have hperm : List.Perm (ids (front ++ [r])) (ids (r :: front.reverse)) := by
        unfold ids
        apply List.Perm.map
        exact (List.perm_append_comm).trans (List.Perm.cons _ (List.reverse_perm front).symm)
      exact hperm.nodup_iff.1 hnd
    have hfront : ∀ x ∈ front.reverse, x.ID ≠ c.SelectedChannel := by
      rw [← hsel]; exact ids_ne_of_nodup_cons hnd2
    have hno : (getNextItem c).2.2 = false := by
      unfold getNextItem
      rw [hl, List.reverse_append, List.reverse_singleton, List.singleton_append,
        getNextItemLoop_first]
      exact getNextItemLoop_none _ _ _ hfront
    refine ⟨(getNextItem c).1, ?_⟩
    unfold MoveCursorDown
    simp only [hno, Bool.false_eq_true, if_false]
    rfl

/-- C7 at a two-record list: up from the first record and down from the last one. -/
theorem C7_edge_moves_fail_witness :
    ((listing [item "a", item "b"] "a" 0).ChannelItems.map (fun r => r.ID)).Nodup ∧
    (∃ hovering, MoveCursorUp 4 (listing [item "a", item "b"] "a" 0)
      = .ok (listing [item "a", item "b"] "a" 0, hovering, false)) ∧
    ((listing [item "a", item "b"] "b" 0).ChannelItems.map (fun r => r.ID)).Nodup ∧
    (∃ hovering, MoveCursorDown 4 (listing [item "a", item "b"] "b" 0)
      = .ok (listing [item "a", item "b"] "b" 0, hovering, false)) :=
  ⟨by decide,
   (C7_edge_moves_fail 4 (listing [item "a", item "b"] "a" 0) (by decide)).1
     (item "a") [item "b"] rfl rfl,
   by decide,
   (C7_edge_moves_fail 4 (listing [item "a", item "b"] "b" 0) (by decide)).2
     (item "b") [item "a"] rfl rfl⟩

theorem split_at_pair (l : List ChannelItem) (k : Nat) (a b : ChannelItem)
    (ha : l.get? k = some a) (hb : l.get? (k + 1) = some b) :
    ∃ pre post, l = pre ++ a :: b :: post := by
  induction l generalizing k with
  | nil => simp at ha
  | cons x xs ih =>
    cases k with
    | zero =>
      cases xs with
      | nil => simp at hb
      | cons y ys =>
        simp only [List.get?_cons_zero, Option.some.injEq] at ha
        simp only [List.get?_cons_succ, List.get?_cons_zero, Option.some.injEq] at hb
        exact ⟨[], ys, by rw [ha, hb]; rfl⟩
    | succ n =>
      simp only [List.get?_cons_succ] at ha hb
      obtain ⟨pre, post, h⟩ := ih n ha hb
      exact ⟨x :: pre, post, by rw [h]; rfl⟩

theorem nodup_split {pre post : List ChannelItem} {a b : ChannelItem}
    (h : (ids (pre ++ a :: b :: post)).Nodup) :
    (∀ x ∈ pre, x.ID ≠ a.ID ∧ x.ID ≠ b.ID) ∧ a.ID ≠ b.ID ∧
    (∀ x ∈ post, x.ID ≠ a.ID ∧ x.ID ≠ b.ID) := by
  simp only [ids, List.map_append, List.map_cons, List.nodup_append, List.nodup_cons,
    List.mem_cons, List.mem_map, not_or, not_exists, not_and] at h
  obtain ⟨_, ⟨⟨hab, ha⟩, ⟨hb, _⟩⟩, hdisj⟩ := h
  refine ⟨?_, hab, ?_⟩
  · intro x hx
    have hd := hdisj (List.mem_map_of_mem _ hx)
    constructor
    · intro he
      exact hd (by simp [he])
    · intro he
      exact hd (by simp [he])
  · intro x hx
    exact ⟨fun he => ha x hx he, fun he => hb x hx he⟩


theorem selectIfFound_of_mem {c : Channels} {id : String} (h : id ∈ ids c.ChannelItems) :
    selectIfFound c id = { c with SelectedChannel := id } := by
  unfold selectIfFound
  rw [(FindChannel_ok c id).2 h]
  rfl

/-- Selecting the non-empty id of a stored record returns, with two units of fuel. -/
theorem SetSelectedChannel_of_mem (fuel : Nat) {c : Channels} {id : String}
    (hmem : id ∈ ids c.ChannelItems) (hne : id ≠ "") :
    SetSelectedChannel (fuel + 2) c id = .ok (relocate { c with SelectedChannel := id }) := by
  rw [SetSelectedChannel_succ, selectIfFound_of_mem hmem]
  exact locateCursor_of_selected fuel _ hne

theorem mem_ids_of_visible {c : Channels} {r : ChannelItem} (h : r ∈ ListChannels c) :
    r.ID ∈ ids c.ChannelItems :=
  mem_ids_of_mem ((ListChannels_sublist c).subset h)

theorem relocate_select_fields (c : Channels) (id : String) :
    (relocate { c with SelectedChannel := id }).SelectedChannel = id ∧
    (relocate { c with SelectedChannel := id }).ChannelItems = c.ChannelItems := by
  obtain ⟨h1, _, _, _, h5⟩ := (relocate_onlyScroll { c with SelectedChannel := id }).fields
  exact ⟨h5, h1⟩

/-- C8 as stated fails when the neighbour has the empty id: in the list `[e, b]` with
`e.ID = ""` and `b` selected, the ids are unique and the selection is at position 1,
yet `MoveCursorUp` returns `(b, false)` and changes nothing; in `[a, e]` with `a`
selected, `MoveCursorDown` returns `(a, false)` and changes nothing. -/
theorem C8_moves_select_neighbour_counterexample :
    ((listing [item "", item "b"] "b" 0).ChannelItems.map (fun r => r.ID)).Nodup ∧
    ListChannels (listing [item "", item "b"] "b" 0) = [item "", item "b"] ∧
    MoveCursorUp 4 (listing [item "", item "b"] "b" 0)
      = .ok (listing [item "", item "b"] "b" 0, item "b", false) ∧
    ((listing [item "a", item ""] "a" 0).ChannelItems.map (fun r => r.ID)).Nodup ∧
    ListChannels (listing [item "a", item ""] "a" 0) = [item "a", item ""] ∧
    MoveCursorDown 4 (listing [item "a", item ""] "a" 0)
      = .ok (listing [item "a", item ""] "a" 0, item "a", false) :=
  ⟨by decide, rfl, rfl, by decide, rfl, rfl⟩

/-- C8, amended: with unique record ids and the selected record `s` at position `k + 1`
of the visible list, if the record `p` at position `k` has a non-empty id then
`MoveCursorUp` returns `(p, true)` and leaves `p` selected; with `s` at position `k`,
if the record `n` at position `k + 1` has a non-empty id then `MoveCursorDown` returns
`(n, true)` and leaves `n` selected. Both leave `ChannelItems` as it was. -/
theorem C8_moves_select_neighbour (fuel : Nat) (c : Channels)
    (huniq : (c.ChannelItems.map (fun r => r.ID)).Nodup) (hfuel : 2 ≤ fuel) :
    (∀ k p s, (ListChannels c).get? k = some p → (ListChannels c).get? (k + 1) = some s →
      s.ID = c.SelectedChannel → p.ID ≠ "" →
      ∃ c1, MoveCursorUp fuel c = .ok (c1, p, true) ∧ c1.SelectedChannel = p.ID ∧
        c1.ChannelItems = c.ChannelItems) ∧
    (∀ k s n, (ListChannels c).get? k = some s → (ListChannels c).get? (k + 1) = some n →
      s.ID = c.SelectedChannel → n.ID ≠ "" →
      ∃ c1, MoveCursorDown fuel c = .ok (c1, n, true) ∧ c1.SelectedChannel = n.ID ∧
        c1.ChannelItems = c.ChannelItems) := by
  obtain ⟨f, rfl⟩ : ∃ f, fuel = f + 2 := ⟨fuel - 2, by omega⟩
  have hnd := ListChannels_nodup (c := c) huniq
  constructor
  · intro k p s hp hs hsel hne
    obtain ⟨pre, post, hl⟩ := split_at_pair _ k p s hp hs
    rw [hl] at hnd
    obtain ⟨hpre, hps, _⟩ := nodup_split hnd
    have hprev : getPreviousItem c = (p, true) := by
      unfold getPreviousItem
      rw [hl]
      exact getPreviousItemLoop_found pre post p s _ _
        (fun x hx => hsel ▸ (hpre x hx).2) (hsel ▸ hps) hsel hne
    have hmem : p.ID ∈ ids c.ChannelItems :=
      mem_ids_of_visible (by rw [hl]; simp)
    refine ⟨ScrollUp (relocate { c with SelectedChannel := p.ID }), ?_, ?_, ?_⟩
    · unfold MoveCursorUp
      simp only [hprev, if_true]
      rw [SetSelectedChannel_of_mem f hmem hne]
      rfl
    · rw [(ScrollUp_onlyScroll _).fields.2.2.2.2]
      exact (relocate_select_fields c p.ID).1
    · rw [(ScrollUp_onlyScroll _).fields.1]
      exact (relocate_select_fields c p.ID).2
  · intro k s n hs hn hsel hne
    obtain ⟨pre, post, hl⟩ := split_at_pair _ k s n hs hn
    rw [hl] at hnd
    obtain ⟨_, hsn, hpost⟩ := nodup_split hnd
    have hnext : getNextItem c = (n, pre.length, true) := by
      unfold getNextItem
      rw [hl]
      have hrev : (pre ++ s :: n :: post).reverse = post.reverse ++ n :: s :: pre.reverse := by
        simp
      rw [hrev]
      have h := getNextItemLoop_found post.reverse pre.reverse n s zeroChannelItem
        c.SelectedChannel
        (fun x hx => hsel ▸ (hpost x (List.mem_reverse.1 hx)).1) (hsel ▸ (Ne.symm hsn)) hsel hne
      rw [h, List.length_reverse]
    have hmem : n.ID ∈ ids c.ChannelItems :=
      mem_ids_of_visible (by rw [hl]; simp)
    refine ⟨ScrollDown (relocate { c with SelectedChannel := n.ID }), ?_, ?_, ?_⟩
    · unfold MoveCursorDown
      simp only [hnext, if_true]
      rw [SetSelectedChannel_of_mem f hmem hne]
      rfl
    · rw [(ScrollDown_onlyScroll _).fields.2.2.2.2]
      exact (relocate_select_fields c n.ID).1
    · rw [(ScrollDown_onlyScroll _).fields.1]
      exact (relocate_select_fields c n.ID).2

/-- C8 (amended) in the list `[a, b, c]`: up from `b` reaches `a`, down from `b`
reaches `c`. -/
theorem C8_moves_select_neighbour_witness :
    ((listing [item "a", item "b", item "c"] "b" 0).ChannelItems.map (fun r => r.ID)).Nodup ∧
    (∃ c1, MoveCursorUp 4 (listing [item "a", item "b", item "c"] "b" 0)
        = .ok (c1, item "a", true) ∧ c1.SelectedChannel = (item "a").ID ∧
        c1.ChannelItems = (listing [item "a", item "b", item "c"] "b" 0).ChannelItems) ∧
    (∃ c1, MoveCursorDown 4 (listing [item "a", item "b", item "c"] "b" 0)
        = .ok (c1, item "c", true) ∧ c1.SelectedChannel = (item "c").ID ∧
        c1.ChannelItems = (listing [item "a", item "b", item "c"] "b" 0).ChannelItems) :=
  ⟨by decide,
   (C8_moves_select_neighbour 4 (listing [item "a", item "b", item "c"] "b" 0)
      (by decide) (by decide)).1 0 (item "a") (item "b") rfl rfl rfl (by decide),
   (C8_moves_select_neighbour 4 (listing [item "a", item "b", item "c"] "b" 0)
      (by decide) (by decide)).2 1 (item "b") (item "c") rfl rfl rfl (by decide)⟩

/-- C9 as stated fails. In a five-row viewport whose top inner row is 2 (`Min.Y = 2`,
`Max.Y = 7`), `MoveCursorBottom` on ten records leaves `Offset = 4`, not
`max(0, 10 - 5) = 5`. In the list `[a, e]` with `e.ID = ""`, `MoveCursorBottom` leaves
`a` selected, not the last record. -/
theorem C9_moveBottom_counterexample :
    MoveCursorBottom 4 { listing tenItems "c0" 0 with InnerBounds := ⟨2, 7⟩, CursorPosition := 2 }
      = .ok { listing tenItems "c9" 4 with InnerBounds := ⟨2, 7⟩, CursorPosition := 2 } ∧
    (4 : Int) ≠ max 0 ((tenItems.length : Int) - (7 - 2)) ∧
    ListChannels (listing [item "a", item ""] "a" 0) = [item "a", item ""] ∧
    MoveCursorBottom 4 (listing [item "a", item ""] "a" 0)
      = .ok (listing [item "a", item ""] "a" 0) :=
  ⟨rfl, by decide, rfl, rfl⟩

/-- C9, amended: when the top inner row of the viewport is row 1 (`Min.Y = 1`) and the
last record of the visible list `V` has a non-empty id, `MoveCursorBottom` returns
with that record selected and `Offset = max(0, len(V) - viewportHeight)`, the height
being `Max.Y - Min.Y`. -/
theorem C9_moveBottom (fuel : Nat) (c : Channels) (last : ChannelItem) (hfuel : 2 ≤ fuel)
    (hlast : (ListChannels c).getLast? = some last) (hid : last.ID ≠ "")
    (hmin : c.InnerBounds.MinY = 1) :
    ∃ c1, MoveCursorBottom fuel c = .ok c1 ∧ c1.SelectedChannel = last.ID ∧
      c1.Offset = max 0 (((ListChannels c).length : Int)
        - (c.InnerBounds.MaxY - c.InnerBounds.MinY)) := by
  obtain ⟨f, rfl⟩ : ∃ f, fuel = f + 2 := ⟨fuel - 2, by omega⟩
  have hmem : last.ID ∈ ids c.ChannelItems :=
    mem_ids_of_visible (List.mem_of_getLast?_eq_some hlast)
  have hsel := (relocate_select_fields c last.ID).1
  have hb : (relocate { c with SelectedChannel := last.ID }).InnerBounds = c.InnerBounds :=
    (relocate_onlyScroll { c with SelectedChannel := last.ID }).fields.2.2.1
  unfold MoveCursorBottom
  simp only [hlast]
  rw [SetSelectedChannel_of_mem f hmem hid]
  simp only [bind, Except.bind, hb, hmin]
  by_cases hneg : ((ListChannels c).length : Int) - (c.InnerBounds.MaxY - 1) < 0
  · refine ⟨_, if_pos hneg, hsel, ?_⟩
    show (0 : Int) = _
    rw [max_eq_left (le_of_lt hneg)]
  · refine ⟨_, if_neg hneg, hsel, ?_⟩
    show ((ListChannels c).length : Int) - (c.InnerBounds.MaxY - 1) = _
    rw [max_eq_right (not_lt.1 hneg)]

/-- C9 (amended) at ten records in five rows, unread-only off: the tenth record is
selected and `Offset` becomes 5. -/
theorem C9_moveBottom_witness :
    (ListChannels (listing tenItems "c0" 0)).getLast? = some (item "c9") ∧
    (listing tenItems "c0" 0).InnerBounds.MinY = 1 ∧
    (∃ c1, MoveCursorBottom 4 (listing tenItems "c0" 0) = .ok c1 ∧
      c1.SelectedChannel = (item "c9").ID ∧
      c1.Offset = max 0 (((ListChannels (listing tenItems "c0" 0)).length : Int)
        - ((listing tenItems "c0" 0).InnerBounds.MaxY
            - (listing tenItems "c0" 0).InnerBounds.MinY))) ∧
    MoveCursorBottom 4 (listing tenItems "c0" 0) = .ok (listing tenItems "c9" 5) :=
  ⟨rfl, rfl,
   C9_moveBottom 4 (listing tenItems "c0" 0) (item "c9") (by decide) rfl (by decide) rfl,
   rfl⟩

/-- More fuel never changes a result: a call that returns with some fuel returns the
same state with one unit more. -/
theorem relocation_fuel_succ (fuel : Nat) :
    (∀ c c1, locateCursor fuel c = .ok c1 → locateCursor (fuel + 1) c = .ok c1) ∧
    (∀ c id c1, SetSelectedChannel fuel c id = .ok c1 →
      SetSelectedChannel (fuel + 1) c id = .ok c1) := by
  induction fuel with
  | zero =>
    constructor
    · intro c c1 h; simp [locateCursor] at h
    · intro c id c1 h; simp [SetSelectedChannel] at h
  | succ n ih =>
    constructor
    · intro c c1 h
      rw [locateCursor_succ] at h ⊢
      split at h
      · split at h
        · rename_i hsel
          rw [if_pos hsel]
          exact ih.2 _ _ _ h
        · rename_i hsel
          rw [if_neg hsel]
          exact h
      · exact h
    · intro c id c1 h
      rw [SetSelectedChannel_succ] at h ⊢
      exact ih.1 _ _ h

/-- A negative position with a non-empty result list always ends in the index panic. -/
theorem GotoPosition_negative (fuel : Nat) (c : Channels) (newPos : Int)
    (hres : ListSearchResults c ≠ []) (hneg : newPos < 0) :
    GotoPosition fuel c newPos = .error .indexOutOfRange := by
  unfold GotoPosition
  have hlen : 0 < (ListSearchResults c).length := List.length_pos.2 hres
  have h1 : ((ListSearchResults c).length == 0) = false := by
    simp only [beq_eq_false_iff_ne]
    omega
  have h2 : ¬ newPos > ((ListSearchResults c).length : Int) - 1 := by omega
  simp [h1, h2, hneg]

/-- A position past the last result is refused without a change of state. -/
theorem GotoPosition_past_end (fuel : Nat) (c : Channels) (newPos : Int)
    (hpos : newPos > ((ListSearchResults c).length : Int) - 1) :
    GotoPosition fuel c newPos = .ok (c, false) := by
  unfold GotoPosition
  simp only [hpos, decide_True, Bool.or_true, if_true]
  rfl

/-! ## The index `FindChannel` returns -/

theorem findChannelFrom_shift (l : List ChannelItem) (id : String) (i : Nat) :
    findChannelFrom l id i =
      if (findChannelFrom l id 0).2 then ((findChannelFrom l id 0).1 + i, true)
      else (0, false) := by
  induction l generalizing i with
  | nil => simp [findChannelFrom]
  | cons x xs ih =>
    unfold findChannelFrom
    by_cases hx : x.ID = id
    · simp [hx]
    · have hb : (x.ID == id) = false := by simp [hx]
      simp only [hb, Bool.false_eq_true, if_false]
      rw [ih (i + 1), ih (0 + 1)]
      split
      · simp only [if_true, Prod.mk.injEq, and_true]
        omega
      · simp

/-- When `FindChannel` succeeds, its index holds a record with the id, and no record
before that index has the id. -/
theorem FindChannel_index {c : Channels} {id : String} (h : (FindChannel c id).2 = true) :
    ∃ x, c.ChannelItems.get? (FindChannel c id).1 = some x ∧ x.ID = id ∧
      ∀ k y, k < (FindChannel c id).1 → c.ChannelItems.get? k = some y → y.ID ≠ id := by
  unfold FindChannel at *
  generalize c.ChannelItems = l at *
  induction l with
  | nil => simp [findChannelFrom] at h
  | cons x xs ih =>
    unfold findChannelFrom at h ⊢
    by_cases hx : x.ID = id
    · refine ⟨x, by simp [hx], hx, ?_⟩
      intro k y hk
      simp [hx] at hk
    · have hb : (x.ID == id) = false := by simp [hx]
      simp only [hb, Bool.false_eq_true, if_false] at h ⊢
      rw [findChannelFrom_shift] at h ⊢
      have h0 : (findChannelFrom xs id 0).2 = true := by
        by_contra hc
        simp [hc] at h
      obtain ⟨y, hy, hid, hfirst⟩ := ih h0
      simp only [h0, if_true]
      refine ⟨y, by simpa using hy, hid, ?_⟩
      intro k z hk hz
      cases k with
      | zero =>
        simp only [List.get?_cons_zero, Option.some.injEq] at hz
        rw [← hz]; exact hx
      | succ n =>
        simp only [List.get?_cons_succ] at hz
        exact hfirst n z (by omega) hz

theorem updateAt_eq_set (l : List ChannelItem) (j : Nat) (f : ChannelItem → ChannelItem)
    (x : ChannelItem) (h : l.get? j = some x) : updateAt l j f = l.set j (f x) := by
  induction l generalizing j with
  | nil => simp at h
  | cons y ys ih =>
    cases j with
    | zero =>
      simp only [List.get?_cons_zero, Option.some.injEq] at h
      simp [updateAt, h]
    | succ n =>
      simp only [List.get?_cons_succ] at h
      simp [updateAt, ih n h]

/-- C17: `MarkAsRead`, `MarkAsUnread` and `SetPresence` leave the state as it is when
no record has the id. Otherwise, with `j` the index `FindChannel` returns, the record
`x` at `j` is the first one with the id, and the new state is the old one with the
record at `j` replaced by `x` with `Notification` (or `Presence`) set: every other
field of that record, every other record, the order, and every other field of the
state are as before. -/
theorem C17_marks_touch_one_field (c : Channels) (channelID presence : String) :
    ((¬ ∃ r ∈ c.ChannelItems, r.ID = channelID) →
      MarkAsRead c channelID = c ∧ MarkAsUnread c channelID = c ∧
      SetPresence c channelID presence = c) ∧
    ((∃ r ∈ c.ChannelItems, r.ID = channelID) →
      ∃ x, c.ChannelItems.get? (FindChannel c channelID).1 = some x ∧ x.ID = channelID ∧
        (∀ k y, k < (FindChannel c channelID).1 → c.ChannelItems.get? k = some y →
          y.ID ≠ channelID) ∧
        MarkAsRead c channelID = { c with ChannelItems :=
            (c.ChannelItems.set (FindChannel c channelID).1 { x with Notification := false }) } ∧
        MarkAsUnread c channelID = { c with ChannelItems :=
            (c.ChannelItems.set (FindChannel c channelID).1 { x with Notification := true }) } ∧
        SetPresence c channelID presence = { c with ChannelItems :=
            (c.ChannelItems.set (FindChannel c channelID).1 { x with Presence := presence }) }) := by
  constructor
  · intro hno
    have hf : (FindChannel c channelID).2 = false := by
      by_contra hc
      exact hno (mem_ids_iff.1 ((FindChannel_ok c channelID).1 (by simpa using hc)))
    simp [MarkAsRead, MarkAsUnread, SetPresence, hf]
  · intro hyes
    have hf : (FindChannel c channelID).2 = true :=
      (FindChannel_ok c channelID).2 (mem_ids_iff.2 hyes)
    obtain ⟨x, hx, hid, hfirst⟩ := FindChannel_index hf
    refine ⟨x, hx, hid, hfirst, ?_, ?_, ?_⟩
    · simp only [MarkAsRead, hf, if_true]
      rw [updateAt_eq_set _ _ _ x hx]
    · simp only [MarkAsUnread, hf, if_true]
      rw [updateAt_eq_set _ _ _ x hx]
    · simp only [SetPresence, hf, if_true]
      rw [updateAt_eq_set _ _ _ x hx]

/-! ## The offset never becomes negative -/

theorem ScrollUp_offset_nonneg (c : Channels) (h : 0 ≤ c.Offset) : 0 ≤ (ScrollUp c).Offset := by
  unfold ScrollUp
  split
  · split
    · show 0 ≤ c.Offset - 1
      omega
    · exact h
  · exact h

theorem ScrollDown_offset_nonneg (c : Channels) (h : 0 ≤ c.Offset) :
    0 ≤ (ScrollDown c).Offset := by
  unfold ScrollDown
  split
  · split
    · show 0 ≤ c.Offset + 1
      omega
    · exact h
  · exact h

theorem locateCursorLoop_offset_nonneg (l : List ChannelItem) (i : Nat) (c : Channels)
    (h : 0 ≤ c.Offset) : 0 ≤ (locateCursorLoop l i c).Offset := by
  induction l generalizing i c with
  | nil => exact h
  | cons x xs ih =>
    have hs : 0 ≤ (ScrollUp (ScrollDown c)).Offset :=
      ScrollUp_offset_nonneg _ (ScrollDown_offset_nonneg c h)
    unfold locateCursorLoop
    simp only
    split
    · exact hs
    · exact ih _ _ hs

theorem relocate_offset_nonneg (c : Channels) (h : 0 ≤ c.Offset) : 0 ≤ (relocate c).Offset :=
  locateCursorLoop_offset_nonneg _ _ _ h

theorem selectIfFound_offset (c : Channels) (id : String) :
    (selectIfFound c id).Offset = c.Offset := by
  unfold selectIfFound
  split <;> rfl

theorem relocation_offset_nonneg (fuel : Nat) :
    (∀ c c1, locateCursor fuel c = .ok c1 → 0 ≤ c.Offset → 0 ≤ c1.Offset) ∧
    (∀ c id c1, SetSelectedChannel fuel c id = .ok c1 → 0 ≤ c.Offset → 0 ≤ c1.Offset) := by
  induction fuel with
  | zero =>
    constructor
    · intro c c1 h; simp [locateCursor] at h
    · intro c id c1 h; simp [SetSelectedChannel] at h
  | succ n ih =>
    constructor
    · intro c c1 h h0
      rw [locateCursor_succ] at h
      split at h
      · split at h
        · exact ih.2 _ _ _ h h0
        · cases h
          exact relocate_offset_nonneg c h0
      · cases h
        exact relocate_offset_nonneg c h0
    · intro c id c1 h h0
      rw [SetSelectedChannel_succ] at h
      exact ih.1 _ _ h (by rw [selectIfFound_offset]; exact h0)

theorem locateCursor_offset_nonneg {fuel : Nat} {c c1 : Channels}
    (h : locateCursor fuel c = .ok c1) (h0 : 0 ≤ c.Offset) : 0 ≤ c1.Offset :=
  (relocation_offset_nonneg fuel).1 c c1 h h0

theorem SetSelectedChannel_offset_nonneg {fuel : Nat} {c c1 : Channels} {id : String}
    (h : SetSelectedChannel fuel c id = .ok c1) (h0 : 0 ≤ c.Offset) : 0 ≤ c1.Offset :=
  (relocation_offset_nonneg fuel).2 c id c1 h h0

theorem SetChannels_offset_nonneg {fuel : Nat} {c c1 : Channels} {l : List ChannelItem}
    (h : SetChannels fuel c l = .ok c1) (h0 : 0 ≤ c.Offset) : 0 ≤ c1.Offset := by
  unfold SetChannels at h
  obtain ⟨c2, h2, hr⟩ := bind_eq_ok h
  have h2n : 0 ≤ c2.Offset := locateCursor_offset_nonneg h2 h0
  split at hr
  · split at hr
    · exact SetSelectedChannel_offset_nonneg hr h2n
    · cases hr; exact h2n
  · cases hr; exact h2n

theorem MoveCursorUp_offset_nonneg {fuel : Nat} {c : Channels}
    {r : Channels × ChannelItem × Bool} (h : MoveCursorUp fuel c = .ok r)
    (h0 : 0 ≤ c.Offset) : 0 ≤ r.1.Offset := by
  unfold MoveCursorUp at h
  simp only at h
  split at h
  · obtain ⟨c1, hs, hr⟩ := bind_eq_ok h
    cases hr
    exact ScrollUp_offset_nonneg _ (SetSelectedChannel_offset_nonneg hs h0)
  · cases h
    exact h0

theorem MoveCursorDown_offset_nonneg {fuel : Nat} {c : Channels}
    {r : Channels × ChannelItem × Bool} (h : MoveCursorDown fuel c = .ok r)
    (h0 : 0 ≤ c.Offset) : 0 ≤ r.1.Offset := by
  unfold MoveCursorDown at h
  simp only at h
  split at h
  · obtain ⟨c1, hs, hr⟩ := bind_eq_ok h
    cases hr
    exact ScrollDown_offset_nonneg _ (SetSelectedChannel_offset_nonneg hs h0)
  · cases h
    exact h0

theorem MoveCursorTop_offset_nonneg {fuel : Nat} {c c1 : Channels}
    (h : MoveCursorTop fuel c = .ok c1) : 0 ≤ c1.Offset := by
  unfold MoveCursorTop at h
  split at h
  · obtain ⟨c2, _, hr⟩ := bind_eq_ok h
    cases hr
    exact le_refl _
  · cases h
    exact le_refl _

theorem MoveCursorBottom_offset_nonneg {fuel : Nat} {c c1 : Channels}
    (h : MoveCursorBottom fuel c = .ok c1) (h0 : 0 ≤ c.Offset) : 0 ≤ c1.Offset := by
  unfold MoveCursorBottom at h
  simp only at h
  split at h
  · obtain ⟨c2, _, hr⟩ := bind_eq_ok h
    split at hr
    · cases hr
      exact le_refl _
    · rename_i hneg
      cases hr
      exact not_lt.1 hneg
  · cases h
    exact h0

theorem GotoPosition_offset_nonneg {fuel : Nat} {c : Channels} {newPos : Int}
    {r : Channels × Bool} (h : GotoPosition fuel c newPos = .ok r) (h0 : 0 ≤ c.Offset) :
    0 ≤ r.1.Offset := by
  unfold GotoPosition at h
  simp only at h
  split at h
  · cases h; exact h0
  · split at h
    · cases h
    · split at h
      · cases h
      · split at h
        · cases h; exact h0
        · split at h
          · cases h
          · split at h
            · obtain ⟨c2, hs, hr⟩ := bind_eq_ok h
              cases hr
              refine SetSelectedChannel_offset_nonneg hs ?_
              show 0 ≤ c.Offset - (c.Offset - _)
              omega
            · split at h
              · rename_i hgt
                obtain ⟨c2, hs, hr⟩ := bind_eq_ok h
                cases hr
                refine SetSelectedChannel_offset_nonneg hs ?_
                show 0 ≤ c.Offset + (_ - (c.Offset + (c.InnerBounds.MaxY - 2)))
                omega
              · obtain ⟨c2, hs, hr⟩ := bind_eq_ok h
                cases hr
                exact SetSelectedChannel_offset_nonneg hs h0

theorem Search_offset_nonneg {find : String → List String → List String} {fuel : Nat}
    {c : Channels} {term : String} {r : Channels × Int}
    (h : Search find fuel c term = .ok r) (h0 : 0 ≤ c.Offset) : 0 ≤ r.1.Offset := by
  unfold Search at h
  simp only at h
  split at h
  · obtain ⟨g, hg, hr⟩ := bind_eq_ok h
    cases hr
    exact GotoPosition_offset_nonneg hg h0
  · cases h
    exact h0

theorem SearchNext_offset_nonneg {fuel : Nat} {c c1 : Channels}
    (h : SearchNext fuel c = .ok c1) (h0 : 0 ≤ c.Offset) : 0 ≤ c1.Offset := by
  unfold SearchNext at h
  obtain ⟨g, hg, hr⟩ := bind_eq_ok h
  have h2 := GotoPosition_offset_nonneg hg h0
  split at hr
  · cases hr; exact h2
  · cases hr; exact h2

theorem SearchPrev_offset_nonneg {fuel : Nat} {c c1 : Channels}
    (h : SearchPrev fuel c = .ok c1) (h0 : 0 ≤ c.Offset) : 0 ≤ c1.Offset := by
  unfold SearchPrev at h
  obtain ⟨g, hg, hr⟩ := bind_eq_ok h
  have h2 := GotoPosition_offset_nonneg hg h0
  split at hr
  · cases hr; exact h2
  · cases hr; exact h2

theorem Jump_offset_nonneg {fuel : Nat} {c c1 : Channels}
    (h : Jump fuel c = .ok c1) (h0 : 0 ≤ c.Offset) : 0 ≤ c1.Offset := by
  unfold Jump at h
  split at h
  · obtain ⟨g, hg, hr⟩ := bind_eq_ok h
    cases hr
    exact GotoPosition_offset_nonneg hg h0
  · cases h
    exact h0

theorem MarkAsRead_offset (c : Channels) (id : String) : (MarkAsRead c id).Offset = c.Offset := by
  unfold MarkAsRead
  simp only
  split <;> rfl

theorem MarkAsUnread_offset (c : Channels) (id : String) :
    (MarkAsUnread c id).Offset = c.Offset := by
  unfold MarkAsUnread
  simp only
  split <;> rfl

theorem SetPresence_offset (c : Channels) (id p : String) :
    (SetPresence c id p).Offset = c.Offset := by
  unfold SetPresence
  simp only
  split <;> rfl

/-- Every operation that returns keeps a non-negative offset non-negative. -/
theorem Op.run_offset_nonneg {find : String → List String → List String} {fuel : Nat}
    {op : Op} {c c1 : Channels} (h : op.run find fuel c = .ok c1) (h0 : 0 ≤ c.Offset) :
    0 ≤ c1.Offset := by
  cases op with
  | SetChannels l => exact SetChannels_offset_nonneg h h0
  | MarkAsRead id => cases h; rw [MarkAsRead_offset]; exact h0
  | MarkAsUnread id => cases h; rw [MarkAsUnread_offset]; exact h0
  | SetPresence id p => cases h; rw [SetPresence_offset]; exact h0
  | SetSelectedChannel id => exact SetSelectedChannel_offset_nonneg h h0
  | MoveCursorUp =>
    obtain ⟨r, hr, he⟩ := map_eq_ok h
    cases he
    exact MoveCursorUp_offset_nonneg hr h0
  | MoveCursorDown =>
    obtain ⟨r, hr, he⟩ := map_eq_ok h
    cases he
    exact MoveCursorDown_offset_nonneg hr h0
  | MoveCursorTop => exact MoveCursorTop_offset_nonneg h
  | MoveCursorBottom => exact MoveCursorBottom_offset_nonneg h h0
  | ScrollUp => cases h; exact ScrollUp_offset_nonneg c h0
  | ScrollDown => cases h; exact ScrollDown_offset_nonneg c h0
  | Search term =>
    obtain ⟨r, hr, he⟩ := map_eq_ok h
    cases he
    exact Search_offset_nonneg hr h0
  | SearchNext => exact SearchNext_offset_nonneg h h0
  | SearchPrev => exact SearchPrev_offset_nonneg h h0
  | GotoPosition newPos =>
    obtain ⟨r, hr, he⟩ := map_eq_ok h
    cases he
    exact GotoPosition_offset_nonneg hr h0
  | Jump => exact Jump_offset_nonneg h h0
  | locateCursor => exact locateCursor_offset_nonneg h h0

/-- C20: the offset is never negative. It is 0 in the state `CreateChannelsComponent`
builds; every operation (in particular each one that writes `Offset`) that starts from
a non-negative offset and returns leaves a non-negative offset, whatever the viewport
bounds and the filter mode; hence every reachable state has `Offset ≥ 0`. -/
theorem C20_offset_never_negative (find : String → List String → List String) :
    (∀ height unreadOnly inner, (CreateChannelsComponent height unreadOnly inner).Offset = 0) ∧
    (∀ (op : Op) (fuel : Nat) (c c1 : Channels),
      0 ≤ c.Offset → op.run find fuel c = .ok c1 → 0 ≤ c1.Offset) ∧
    (∀ height unreadOnly inner c,
      Reachable find (CreateChannelsComponent height unreadOnly inner) c → 0 ≤ c.Offset) := by
  refine ⟨fun _ _ _ => rfl, fun op fuel c c1 h0 h => Op.run_offset_nonneg h h0, ?_⟩
  intro height unreadOnly inner c hreach
  induction hreach with
  | init => exact le_refl _
  | step op fuel _ hrun ih => exact Op.run_offset_nonneg hrun ih



/-- C20 along a run: `SetChannels` of ten records, then `MoveCursorBottom`, which
writes `Offset = 5`. -/
theorem C20_offset_never_negative_witness :
    Reachable findNothing (CreateChannelsComponent 7 false ⟨1, 6⟩) (listing tenItems "c9" 5) ∧
    (0 : Int) ≤ (listing tenItems "c9" 5).Offset :=
  have hreach : Reachable findNothing (CreateChannelsComponent 7 false ⟨1, 6⟩)
      (listing tenItems "c9" 5) :=
    Reachable.step Op.MoveCursorBottom 4
      (Reachable.step (Op.SetChannels tenItems) 4 Reachable.init
        (rfl : (Op.SetChannels tenItems).run findNothing 4
          (CreateChannelsComponent 7 false ⟨1, 6⟩) = .ok (listing tenItems "c0" 0)))
      (rfl : Op.MoveCursorBottom.run findNothing 4 (listing tenItems "c0" 0)
        = .ok (listing tenItems "c9" 5))
  ⟨hreach, (C20_offset_never_negative findNothing).2.2 7 false ⟨1, 6⟩
    (listing tenItems "c9" 5) hreach⟩

/-! ## Termination of the cursor relocation -/

theorem selectIfFound_of_diverging {c : Channels} (h : Diverging c) :
    selectIfFound c "" = c := by
  unfold selectIfFound
  split
  · obtain ⟨hsel, _⟩ := h
    cases c
    simp only at hsel
    subst hsel
    rfl
  · rfl

theorem Diverging.atRow {c : Channels} (h : Diverging c) (row : Int) :
    Diverging { c with CursorPosition := row } := by
  obtain ⟨hsel, first, rest, hl, hid⟩ := h
  refine ⟨hsel, first, rest, ?_, hid⟩
  rw [← hl]
  exact ListChannels_congr rfl rfl rfl

/-- In a diverging state neither function returns, whatever the fuel. -/
theorem relocation_diverges (fuel : Nat) :
    (∀ c, Diverging c → locateCursor fuel c = .error .outOfFuel) ∧
    (∀ c, Diverging c → SetSelectedChannel fuel c "" = .error .outOfFuel) := by
  induction fuel with
  | zero => exact ⟨fun _ _ => rfl, fun _ _ => rfl⟩
  | succ n ih =>
    constructor
    · intro c h
      obtain ⟨hsel, first, rest, hl, hid⟩ := h
      rw [locateCursor_succ, hl]
      simp only
      rw [if_pos hsel, hid]
      exact ih.2 _ (Diverging.atRow ⟨hsel, first, rest, hl, hid⟩ _)
    · intro c h
      rw [SetSelectedChannel_succ, selectIfFound_of_diverging h]
      exact ih.1 c h

/-- Outside the diverging states the relocation returns with three units of fuel. -/
theorem locateCursor_returns (fuel : Nat) (c : Channels) (h : ¬ Diverging c) :
    ∃ c1, locateCursor (fuel + 3) c = .ok c1 := by
  by_cases hsel : c.SelectedChannel = ""
  · cases hl : ListChannels c with
    | nil => exact ⟨_, locateCursor_of_empty _ c hl⟩
    | cons first rest =>
      have hid : first.ID ≠ "" := fun hid => h ⟨hsel, first, rest, hl, hid⟩
      have hmem : first.ID ∈ ids c.ChannelItems :=
        mem_ids_of_visible (by rw [hl]; exact List.mem_cons_self _ _)
      have hs : SetSelectedChannel (fuel + 2) { c with CursorPosition := c.InnerBounds.MinY }
          first.ID = .ok (relocate { c with CursorPosition := c.InnerBounds.MinY,
                                            SelectedChannel := first.ID }) :=
        SetSelectedChannel_of_mem fuel hmem hid
      rw [locateCursor_succ, hl]
      simp only
      rw [if_pos hsel]
      exact ⟨_, hs⟩
  · exact ⟨_, locateCursor_of_selected _ c hsel⟩

/-- C18, the code at a failing input: with one record whose id is the empty string
and nothing selected, `locateCursor` and `SetSelectedChannel("")` call each other
without end, and so does `SetChannels` of that list on a fresh component: no amount of
fuel gives a result. -/
theorem C18_relocation_never_returns :
    Diverging (listing [item ""] "" 0) ∧
    (∀ fuel, locateCursor fuel (listing [item ""] "" 0) = .error .outOfFuel) ∧
    (∀ fuel, SetSelectedChannel fuel (listing [item ""] "" 0) "" = .error .outOfFuel) ∧
    (∀ fuel, SetChannels fuel (fresh false) [item ""] = .error .outOfFuel) := by
  have hd : Diverging (listing [item ""] "" 0) := ⟨rfl, item "", [], rfl, rfl⟩
  refine ⟨hd, fun fuel => (relocation_diverges fuel).1 _ hd,
    fun fuel => (relocation_diverges fuel).2 _ hd, ?_⟩
  intro fuel
  have hd2 : Diverging { fresh false with ChannelItems := [item ""] } :=
    ⟨rfl, item "", [], rfl, rfl⟩
  unfold SetChannels
  rw [(relocation_diverges fuel).1 _ hd2]
  rfl

/-- C19, the code at a failing input: in the list `[a, b]` with `b`, the record at
position 1, selected and `Offset = 0`, `locateCursor` leaves `CursorPosition = 1`, the
top row, although the row of position 1 is `Min.Y + 1 - Offset = 2`; with `a` selected
the cursor is on row 1 as it should be. -/
theorem C19_cursor_misses_last_record :
    ListChannels (listing [item "a", item "b"] "b" 0) = [item "a", item "b"] ∧
    locateCursor 4 (listing [item "a", item "b"] "b" 0)
      = .ok (listing [item "a", item "b"] "b" 0) ∧
    (listing [item "a", item "b"] "b" 0).CursorPosition = 1 ∧
    (listing [item "a", item "b"] "b" 0).CursorPosition ≠
      (listing [item "a", item "b"] "b" 0).InnerBounds.MinY + 1
        - (listing [item "a", item "b"] "b" 0).Offset ∧
    locateCursor 4 (listing [item "a", item "b"] "a" 0)
      = .ok (listing [item "a", item "b"] "a" 0) :=
  ⟨rfl, rfl, rfl, by decide, rfl⟩

/-- C13, the code at a failing input: two records `a` and `b` share the name
`general`, and the matcher returns that name once for each. `Search("general")`
returns the count 2, flags `a` and leaves `b`, whose name matches, without the flag. -/
theorem C13_search_misses_same_name :
    findExact "general" (twoGenerals.map (fun r => r.Name)) = ["general", "general"] ∧
    Search findExact 4 (listing twoGenerals "a" 0) "general"
      = .ok (listing [{ item "a" with Name := "general", IsSearchResult := true },
               { item "b" with Name := "general" }] "a" 0, 2) :=
  ⟨rfl, rfl⟩

/-! ## Jumping to a search result -/

/-- The search results are the flagged records of the store, in store order, in
either filter mode. -/
theorem ListSearchResults_store (c : Channels) :
    ListSearchResults c = c.ChannelItems.filter (fun r => r.IsSearchResult) := by
  rw [ListSearchResults_eq, ListChannels_eq]
  split
  · rw [List.filter_filter]
    apply List.filter_congr
    intro x _
    cases hx : x.IsSearchResult <;> simp [isPinned, hx]
  · rfl

theorem gotoOffset_eq (c : Channels) (p : Int) :
    gotoOffset c p =
      if p < c.Offset then p
      else if p > c.Offset + (c.InnerBounds.MaxY - 2) then p - (c.InnerBounds.MaxY - 2)
      else c.Offset := by
  unfold gotoOffset
  split
  · omega
  · split
    · omega
    · rfl

theorem mem_store_of_result {c : Channels} {target : ChannelItem}
    (h : target ∈ ListSearchResults c) : target.ID ∈ ids c.ChannelItems := by
  rw [ListSearchResults_store] at h
  exact mem_ids_of_mem (List.mem_filter.1 h).1

/-- `GotoPosition` at a valid position whose record has a non-empty id: it writes
`gotoOffset`, selects the record and relocates the cursor, and returns `ok = true`. -/
theorem GotoPosition_at (fuel : Nat) (c : Channels) (i : Nat) (target : ChannelItem)
    (h : (ListSearchResults c).get? i = some target) (hid : target.ID ≠ "") :
    GotoPosition (fuel + 2) c (i : Int) =
      .ok (relocate { c with Offset := gotoOffset c ((FindChannel c target.ID).1 : Int),
                             SelectedChannel := target.ID }, true) := by
  have hlt : i < (ListSearchResults c).length := by
    by_contra hc
    rw [List.get?_eq_none.2 (not_lt.1 hc)] at h
    cases h
  have hmem : target.ID ∈ ids c.ChannelItems :=
    mem_store_of_result (List.get?_mem h)
  have hfound : (FindChannel c target.ID).2 = true := (FindChannel_ok c _).2 hmem
  obtain ⟨found, hget, hfid, _⟩ := FindChannel_index hfound
  have h1 : ((ListSearchResults c).length == 0
      || decide ((i : Int) > ((ListSearchResults c).length : Int) - 1)) = false := by
    have ha : ((ListSearchResults c).length == 0) = false := by
      simp only [beq_eq_false_iff_ne]; omega
    have hb : decide ((i : Int) > ((ListSearchResults c).length : Int) - 1) = false := by
      simp only [decide_eq_false_iff_not]; omega
    rw [ha, hb]; rfl
  have hneg : ¬ ((i : Int) < 0) := by omega
  have hsel : ∀ o : Int, SetSelectedChannel (fuel + 2) { c with Offset := o } target.ID
      = .ok (relocate { c with Offset := o, SelectedChannel := target.ID }) :=
    fun o => SetSelectedChannel_of_mem fuel hmem hid
  unfold GotoPosition
  simp only [h1, Bool.false_eq_true, if_false, hneg, Int.toNat_ofNat, h, hfound, Bool.not_true,
    hget, hfid]
  unfold gotoOffset
  split
  · rw [hsel]; rfl
  · split
    · rw [hsel]; rfl
    · have h0 := hsel c.Offset
      rw [show ({ c with Offset := c.Offset } : Channels) = c from rfl] at h0
      rw [h0]; rfl


/-- C11, the code at a failing input: five rows (`Min.Y = 1`, `Max.Y = 6`), ten records,
`Offset = 0` and the only search result `c8` at position 8. `GotoPosition(0)` returns
`ok = true` with `c8` selected; it writes `Offset = 8 - (6 - 2) = 4` and hands that
state to `SetSelectedChannel`, whose cursor relocation takes the offset back to 0. The
call so returns `Offset = 0` with the cursor on row 9: the target is neither inside
the window `[0, 0 + 5 - 2]` of the claim nor inside the window `[0, 0 + 6 - 2]` of the
code, and the offset is not `8 - (5 - 2)`. With `Offset = 5` and the only result `c2`
at position 2, below the offset, the call returns `Offset = 0`, not 2. -/
theorem C11_gotoPosition_shift_undone :
    ListSearchResults (listing ninthFlagged "c0" 0) = [flagged "c8"] ∧
    FindChannel (listing ninthFlagged "c0" 0) "c8" = (8, true) ∧
    GotoPosition 4 (listing ninthFlagged "c0" 0) 0
      = .ok ({ listing ninthFlagged "c8" 0 with CursorPosition := 9 }, true) ∧
    SetSelectedChannel 4 (listing ninthFlagged "c0" 4) "c8"
      = .ok { listing ninthFlagged "c8" 0 with CursorPosition := 9 } ∧
    ¬ ((8 : Int) ≤ 0 + ((6 - 1) - 2)) ∧ ¬ ((8 : Int) ≤ 0 + (6 - 2)) ∧
    (0 : Int) ≠ 8 - ((6 - 1) - 2) ∧
    ListSearchResults (listing thirdFlagged "c9" 5) = [flagged "c2"] ∧
    FindChannel (listing thirdFlagged "c9" 5) "c2" = (2, true) ∧
    GotoPosition 4 (listing thirdFlagged "c9" 5) 0
      = .ok ({ listing thirdFlagged "c2" 0 with CursorPosition := 3 }, true) ∧
    (0 : Int) ≠ 2 :=
  ⟨rfl, rfl, rfl, rfl, by decide, by decide, by decide, rfl, rfl, rfl, by decide⟩

/-! ## Replacing the store -/

/-- C16 as stated fails when the first record of the new list has the empty id: on a
fresh component with unread-only off, `SetChannels([e])` with `e.ID = ""` never
returns, whatever the fuel. -/
theorem C16_setChannels_counterexample :
    (fresh false).UnreadOnly = false ∧
    ∀ fuel, SetChannels fuel (fresh false) [item ""] = .error .outOfFuel := by
  refine ⟨rfl, ?_⟩
  intro fuel
  have hd : Diverging { fresh false with ChannelItems := [item ""] } :=
    ⟨rfl, item "", [], rfl, rfl⟩
  unfold SetChannels
  rw [(relocation_diverges fuel).1 _ hd]
  rfl

/-- C16, amended: with unread-only off, for every state and every list `L` whose first
record has a non-empty id, `SetChannels(L)` returns with `ChannelItems = L` and the
first record of `L` selected, whatever was selected before. -/
theorem C16_setChannels (fuel : Nat) (c : Channels) (first : ChannelItem)
    (rest : List ChannelItem) (hfuel : 3 ≤ fuel) (hu : c.UnreadOnly = false)
    (hid : first.ID ≠ "") :
    ∃ c1, SetChannels fuel c (first :: rest) = .ok c1 ∧
      c1.ChannelItems = first :: rest ∧ c1.SelectedChannel = first.ID := by
  obtain ⟨f, rfl⟩ : ∃ f, fuel = f + 3 := ⟨fuel - 3, by omega⟩
  have hlist : ListChannels { c with ChannelItems := first :: rest } = first :: rest := by
    rw [ListChannels_eq]
    simp [hu]
  have hnd : ¬ Diverging { c with ChannelItems := first :: rest } := by
    rintro ⟨_, x, xs, hl, hx⟩
    rw [hlist] at hl
    cases hl
    exact hid hx
  obtain ⟨c2, h2⟩ := locateCursor_returns f _ hnd
  obtain ⟨a1, a2, _, _, _⟩ := locateCursor_reselected h2
  simp only at a1 a2
  have hmem : first.ID ∈ ids c2.ChannelItems := by
    rw [a1]; simp [ids]
  have hs : SetSelectedChannel (f + 3) c2 first.ID
      = .ok (relocate { c2 with SelectedChannel := first.ID }) :=
    SetSelectedChannel_of_mem (f + 1) hmem hid
  have hu2 : (!c2.UnreadOnly) = true := by rw [a2, hu]; rfl
  refine ⟨relocate { c2 with SelectedChannel := first.ID }, ?_, ?_, ?_⟩
  · unfold SetChannels
    rw [h2]
    simp only [bind, Except.bind]
    split
    · rename_i x xs hx
      rw [a1] at hx
      cases hx
      rw [if_pos hu2]
      exact hs
    · rename_i hx
      rw [a1] at hx
      cases hx
  · rw [(relocate_select_fields c2 first.ID).2, a1]
  · exact (relocate_select_fields c2 first.ID).1

/-- C16 (amended) at a state with `c3` selected: `SetChannels([a, b])` selects `a`. -/
theorem C16_setChannels_witness :
    (listing tenItems "c3" 0).UnreadOnly = false ∧
    (∃ c1, SetChannels 4 (listing tenItems "c3" 0) (item "a" :: [item "b"]) = .ok c1 ∧
      c1.ChannelItems = item "a" :: [item "b"] ∧ c1.SelectedChannel = (item "a").ID) ∧
    SetChannels 4 (listing tenItems "c3" 0) [item "a", item "b"]
      = .ok (listing [item "a", item "b"] "a" 0) :=
  ⟨rfl,
   C16_setChannels 4 (listing tenItems "c3" 0) (item "a") [item "b"] (by decide) rfl (by decide),
   rfl⟩

/-! ## Stepping through the search results -/

/-- C15 as stated fails when the next result has the empty id: with the results
`[a, e]`, `e.ID = ""`, `a` selected and `SearchPosition = 0`, `SearchNext` returns
with `SearchPosition = 1` but with `a` still selected, not the record at position 1. -/
theorem C15_searchNext_counterexample :
    ListSearchResults (listing [flagged "a", flagged ""] "a" 0) = [flagged "a", flagged ""] ∧
    (listing [flagged "a", flagged ""] "a" 0).SearchPosition = 0 ∧
    SearchNext 4 (listing [flagged "a", flagged ""] "a" 0)
      = .ok { listing [flagged "a", flagged ""] "a" 0 with SearchPosition := 1 } ∧
    ({ listing [flagged "a", flagged ""] "a" 0 with SearchPosition := 1 } : Channels).SelectedChannel
      ≠ (flagged "").ID :=
  ⟨rfl, rfl, rfl, by decide⟩

/-- C15, amended: with `SearchPosition = k ≥ 0` and a record `target` with a non-empty
id at position `k + 1` of the search results, `SearchNext` returns with
`SearchPosition = k + 1` and `target` selected; the store, and with it the flag of
every record and the list of search results, is as before. -/
theorem C15_searchNext (fuel : Nat) (c : Channels) (k : Nat) (target : ChannelItem)
    (hfuel : 2 ≤ fuel) (hpos : c.SearchPosition = (k : Int))
    (h : (ListSearchResults c).get? (k + 1) = some target) (hid : target.ID ≠ "") :
    ∃ c1, SearchNext fuel c = .ok c1 ∧ c1.SearchPosition = c.SearchPosition + 1 ∧
      c1.SelectedChannel = target.ID ∧ c1.ChannelItems = c.ChannelItems ∧
      ListSearchResults c1 = ListSearchResults c := by
  obtain ⟨f, rfl⟩ : ∃ f, fuel = f + 2 := ⟨fuel - 2, by omega⟩
  have hcast : c.SearchPosition + 1 = ((k + 1 : Nat) : Int) := by
    rw [hpos]; push_cast; rfl
  have hgo := GotoPosition_at f c (k + 1) target h hid
  have hitems := (relocate_onlyScroll { c with
      Offset := gotoOffset c ((FindChannel c target.ID).1 : Int),
      SelectedChannel := target.ID }).fields
  refine ⟨{ relocate { c with
      Offset := gotoOffset c ((FindChannel c target.ID).1 : Int),
      SelectedChannel := target.ID } with SearchPosition := c.SearchPosition + 1 }, ?_, rfl, ?_, ?_, ?_⟩
  · unfold SearchNext
    simp only [hcast, hgo, bind, Except.bind, if_true]
    rfl
  · exact hitems.2.2.2.2
  · exact hitems.1
  · rw [ListSearchResults_store, ListSearchResults_store]
    show List.filter _ (relocate _).ChannelItems = _
    rw [hitems.1]

/-- C15 (amended) on the results `[a, c]` of the store `[a, b, c]`: from position 0
`SearchNext` goes to position 1 and selects `c`. -/
theorem C15_searchNext_witness :
    (listing [flagged "a", item "b", flagged "c"] "a" 0).SearchPosition = ((0 : Nat) : Int) ∧
    (ListSearchResults (listing [flagged "a", item "b", flagged "c"] "a" 0)).get? (0 + 1)
      = some (flagged "c") ∧
    (∃ c1, SearchNext 4 (listing [flagged "a", item "b", flagged "c"] "a" 0) = .ok c1 ∧
      c1.SearchPosition = (listing [flagged "a", item "b", flagged "c"] "a" 0).SearchPosition + 1 ∧
      c1.SelectedChannel = (flagged "c").ID ∧
      c1.ChannelItems = (listing [flagged "a", item "b", flagged "c"] "a" 0).ChannelItems ∧
      ListSearchResults c1
        = ListSearchResults (listing [flagged "a", item "b", flagged "c"] "a" 0)) ∧
    SearchNext 4 (listing [flagged "a", item "b", flagged "c"] "a" 0)
      = .ok { listing [flagged "a", item "b", flagged "c"] "c" 0 with SearchPosition := 1 } :=
  ⟨rfl, rfl,
   C15_searchNext 4 (listing [flagged "a", item "b", flagged "c"] "a" 0) 0 (flagged "c")
     (by decide) rfl rfl (by decide),
   rfl⟩

/-! ## The flags a search sets -/

theorem Search_eq (find : String → List String → List String) (fuel : Nat) (c : Channels)
    (term : String) :
    Search find fuel c term =
      if (searchFlags find c term).2 > 0 then
        (GotoPosition fuel { c with ChannelItems := (searchFlags find c term).1 } 0).bind
          (fun r => .ok ({ r.1 with SearchPosition := 0 }, (searchFlags find c term).2))
      else .ok ({ c with ChannelItems := (searchFlags find c term).1 },
        (searchFlags find c term).2) := rfl

/-- The store and the count of every result of `Search` are those of `searchFlags`. -/
theorem Search_store {find : String → List String → List String} {fuel : Nat} {c : Channels}
    {term : String} {r : Channels × Int} (h : Search find fuel c term = .ok r) :
    r.1.ChannelItems = (searchFlags find c term).1 ∧ r.2 = (searchFlags find c term).2 := by
  rw [Search_eq] at h
  split at h
  · cases hg : GotoPosition fuel { c with ChannelItems := (searchFlags find c term).1 } 0 with
    | error e => rw [hg] at h; cases h
    | ok g =>
      rw [hg] at h
      cases h
      exact ⟨(GotoPosition_reselected hg).1, rfl⟩
  · cases h
    exact ⟨rfl, rfl⟩

theorem clearSearchResults_unflagged (l : List ChannelItem) :
    ∀ x ∈ clearSearchResults l, x.IsSearchResult = false := by
  intro x hx
  unfold clearSearchResults at hx
  obtain ⟨y, _, hy⟩ := List.mem_map.1 hx
  by_cases hf : y.IsSearchResult = true
  · rw [if_pos hf] at hy
    rw [← hy]
  · rw [if_neg hf] at hy
    rw [← hy]
    simpa using hf

theorem clearSearchResults_names (l : List ChannelItem) :
    (clearSearchResults l).map (fun chn => chn.Name) = l.map (fun chn => chn.Name) := by
  induction l with
  | nil => rfl
  | cons x xs ih =>
    simp only [clearSearchResults] at ih
    simp only [clearSearchResults, List.map_cons]
    congr 1
    split <;> rfl

/-- A property of names that holds of the flagged records and of the match still
holds of the flagged records once the first record with the matched name is flagged. -/
theorem flagFirstNamed_flagged (Q : String → Prop) (l : List ChannelItem) (m : String)
    (hl : ∀ y ∈ l, y.IsSearchResult = true → Q y.Name) (hm : Q m) :
    ∀ x ∈ (flagFirstNamed l m).1, x.IsSearchResult = true → Q x.Name := by
  induction l with
  | nil => intro x hx; cases hx
  | cons y ys ih =>
    intro x hx hf
    unfold flagFirstNamed at hx
    split at hx
    · rename_i hname
      rcases List.mem_cons.1 hx with h | h
      · rw [h]
        have : m = y.Name := by simpa using hname
        rw [← this]; exact hm
      · exact hl x (List.mem_cons_of_mem _ h) hf
    · rcases List.mem_cons.1 hx with h | h
      · rw [h]
        exact hl y (List.mem_cons_self _ _) (h ▸ hf)
      · exact ih (fun z hz => hl z (List.mem_cons_of_mem _ hz)) x h hf

theorem flag_fold_flagged (Q : String → Prop) (matched : List String)
    (acc : List ChannelItem × Int)
    (hacc : ∀ y ∈ acc.1, y.IsSearchResult = true → Q y.Name) (hm : ∀ m ∈ matched, Q m) :
    ∀ x ∈ (matched.foldl
      (fun (acc : List ChannelItem × Int) m =>
        let r := flagFirstNamed acc.1 m
        if r.2 then (r.1, acc.2 + 1) else acc) acc).1, x.IsSearchResult = true → Q x.Name := by
  induction matched generalizing acc with
  | nil => exact hacc
  | cons m ms ih =>
    simp only [List.foldl_cons]
    apply ih
    · split
      · exact flagFirstNamed_flagged Q acc.1 m hacc (hm m (List.mem_cons_self _ _))
      · exact hacc
    · exact fun k hk => hm k (List.mem_cons_of_mem _ hk)

theorem flagMatches_flagged (Q : String → Prop) (matched : List String)
    (items : List ChannelItem) (hitems : ∀ y ∈ items, y.IsSearchResult = false)
    (hm : ∀ m ∈ matched, Q m) :
    ∀ x ∈ (flagMatches matched items).1, x.IsSearchResult = true → Q x.Name := by
  apply flag_fold_flagged Q matched (items, 0) _ hm
  intro y hy hf
  rw [hitems y hy] at hf
  cases hf

/-- When the inner loop of `Search` finds a record, the store holds a flagged record. -/
theorem flagFirstNamed_found (l : List ChannelItem) (m : String)
    (h : (flagFirstNamed l m).2 = true) :
    ∃ x ∈ (flagFirstNamed l m).1, x.IsSearchResult = true := by
  induction l with
  | nil => simp [flagFirstNamed] at h
  | cons y ys ih =>
    unfold flagFirstNamed at h ⊢
    split
    · exact ⟨_, List.mem_cons_self _ _, rfl⟩
    · rename_i hname
      rw [if_neg hname] at h
      obtain ⟨x, hx, hf⟩ := ih h
      exact ⟨x, List.mem_cons_of_mem _ hx, hf⟩

theorem flag_fold_count (matched : List String) (acc : List ChannelItem × Int)
    (h0 : 0 ≤ acc.2) (hacc : 0 < acc.2 → ∃ x ∈ acc.1, x.IsSearchResult = true) :
    0 ≤ (matched.foldl
      (fun (acc : List ChannelItem × Int) m =>
        let r := flagFirstNamed acc.1 m
        if r.2 then (r.1, acc.2 + 1) else acc) acc).2 ∧
    (0 < (matched.foldl
      (fun (acc : List ChannelItem × Int) m =>
        let r := flagFirstNamed acc.1 m
        if r.2 then (r.1, acc.2 + 1) else acc) acc).2 →
      ∃ x ∈ (matched.foldl
        (fun (acc : List ChannelItem × Int) m =>
          let r := flagFirstNamed acc.1 m
          if r.2 then (r.1, acc.2 + 1) else acc) acc).1, x.IsSearchResult = true) := by
  induction matched generalizing acc with
  | nil => exact ⟨h0, hacc⟩
  | cons m ms ih =>
    simp only [List.foldl_cons]
    apply ih
    · split
      · show 0 ≤ acc.2 + 1
        omega
      · exact h0
    · split
      · rename_i hf
        exact fun _ => flagFirstNamed_found acc.1 m hf
      · exact hacc

/-- The count of `Search` is never negative, and a positive count comes with a flagged
record in the store. -/
theorem searchFlags_count (find : String → List String → List String) (c : Channels)
    (term : String) :
    0 ≤ (searchFlags find c term).2 ∧
    (0 < (searchFlags find c term).2 →
      ∃ x ∈ (searchFlags find c term).1, x.IsSearchResult = true) := by
  unfold searchFlags flagMatches
  exact flag_fold_count _ _ (le_refl _) (fun h => absurd h (lt_irrefl _))


theorem ids_searchFlags (find : String → List String → List String) (c : Channels)
    (term : String) : ids (searchFlags find c term).1 = ids c.ChannelItems :=
  (ids_flagMatches _ _).trans (ids_clearSearchResults c.ChannelItems)

/-- The first flagged record of the store `Search` has computed, when the count is
positive: it is the first search result of the state that goes to `GotoPosition`. -/
theorem searchFlags_first (find : String → List String → List String) (c : Channels)
    (term : String) (hpos : 0 < (searchFlags find c term).2) :
    ∃ f, ((searchFlags find c term).1.filter (fun r => r.IsSearchResult)).head? = some f ∧
      f ∈ (searchFlags find c term).1 ∧
      (ListSearchResults { c with ChannelItems := (searchFlags find c term).1 }).get? 0
        = some f := by
  obtain ⟨x, hx, hxf⟩ := (searchFlags_count find c term).2 hpos
  have hmem : x ∈ (searchFlags find c term).1.filter (fun r => r.IsSearchResult) :=
    List.mem_filter.2 ⟨hx, hxf⟩
  cases hl : (searchFlags find c term).1.filter (fun r => r.IsSearchResult) with
  | nil => rw [hl] at hmem; cases hmem
  | cons f rest =>
    have hf : f ∈ (searchFlags find c term).1.filter (fun r => r.IsSearchResult) := by
      rw [hl]; exact List.mem_cons_self _ _
    refine ⟨f, rfl, (List.mem_filter.1 hf).1, ?_⟩
    rw [ListSearchResults_store]
    show (List.filter _ (searchFlags find c term).1).get? 0 = some f
    rw [hl]
    rfl

/-- `Search` returns, with two units of fuel, when no record has the empty id. -/
theorem Search_returns (find : String → List String → List String) (fuel : Nat)
    (c : Channels) (term : String) (hids : ∀ x ∈ c.ChannelItems, x.ID ≠ "") :
    ∃ r, Search find (fuel + 2) c term = .ok r := by
  rw [Search_eq]
  split
  · rename_i hpos
    obtain ⟨f, _, hmem, hget⟩ := searchFlags_first find c term hpos
    have hid : f.ID ≠ "" := by
      have h1 : f.ID ∈ ids c.ChannelItems := by
        rw [← ids_searchFlags find c term]; exact mem_ids_of_mem hmem
      obtain ⟨y, hy, hyid⟩ := mem_ids_iff.1 h1
      rw [← hyid]; exact hids y hy
    have hgo := GotoPosition_at fuel _ 0 f hget hid
    simp only [Nat.cast_zero] at hgo
    rw [hgo]
    exact ⟨_, rfl⟩
  · exact ⟨_, rfl⟩

/-- C12: a new search leaves no stale flags. With `fuzzy.Find` the sub-list of the
names that satisfy a match predicate, in every state `Search(term)` returns, whatever
flags the state it started from carried, every flagged record has a name that matches
the term. If no name matches, `Search` returns 0 and no record is flagged. `Search`
does return when no record has the empty id. -/
theorem C12_search_leaves_no_stale_flags (p : String → String → Bool) (fuel : Nat)
    (c : Channels) (term : String) :
    (∀ c1 n, Search (findBy p) fuel c term = .ok (c1, n) →
      ∀ x ∈ c1.ChannelItems, x.IsSearchResult = true → p term x.Name = true) ∧
    ((∀ x ∈ c.ChannelItems, p term x.Name = false) →
      ∃ c1, Search (findBy p) fuel c term = .ok (c1, 0) ∧
        ∀ x ∈ c1.ChannelItems, x.IsSearchResult = false) ∧
    (2 ≤ fuel → (∀ x ∈ c.ChannelItems, x.ID ≠ "") →
      ∃ c1 n, Search (findBy p) fuel c term = .ok (c1, n)) := by
  refine ⟨?_, ?_, ?_⟩
  · intro c1 n h x hx hf
    have hstore := (Search_store h).1
    simp only at hstore
    rw [hstore] at hx
    refine flagMatches_flagged (fun name => p term name = true) _ _
      (clearSearchResults_unflagged _) ?_ x hx hf
    intro m hm
    exact (List.mem_filter.1 hm).2
  · intro hno
    have hmatched : findBy p term ((clearSearchResults c.ChannelItems).map (fun chn => chn.Name))
        = [] := by
      rw [clearSearchResults_names]
      unfold findBy
      rw [List.filter_eq_nil_iff]
      intro name hname
      obtain ⟨y, hy, hyn⟩ := List.mem_map.1 hname
      rw [← hyn, hno y hy]
      simp
    have hflags : searchFlags (findBy p) c term = (clearSearchResults c.ChannelItems, 0) := by
      unfold searchFlags
      rw [hmatched]
      rfl
    refine ⟨{ c with ChannelItems := clearSearchResults c.ChannelItems }, ?_, ?_⟩
    · rw [Search_eq, hflags]
      rfl
    · exact clearSearchResults_unflagged _
  · intro hfuel hids
    obtain ⟨f, rfl⟩ : ∃ f, fuel = f + 2 := ⟨fuel - 2, by omega⟩
    obtain ⟨r, hr⟩ := Search_returns (findBy p) f c term hids
    exact ⟨r.1, r.2, hr⟩

/-- C12 at a store with a stale flag: `random` carries a flag from an earlier search;
after `Search("gen")` `general` is flagged and `random` is not. -/
theorem C12_search_leaves_no_stale_flags_witness :
    Search (findBy subsequenceMatch) 4 (listing [flagged "random", item "general"] "random" 0)
        "gen"
      = .ok ({ listing [item "random", flagged "general"] "general" 0 with CursorPosition := 1 },
          1) ∧
    ∀ x ∈ [item "random", flagged "general"],
      x.IsSearchResult = true → subsequenceMatch "gen" x.Name = true :=
  ⟨rfl, (C12_search_leaves_no_stale_flags subsequenceMatch 4
    (listing [flagged "random", item "general"] "random" 0) "gen").1
    { listing [item "random", flagged "general"] "general" 0 with CursorPosition := 1 } 1 rfl⟩

/-! ## The jump to the first result -/

/-- C14 as stated fails when the first flagged record has the empty id: in the store
`[b, e]` with `e.ID = ""` and `e` named `x`, `Search("x")` returns the count 1 and
flags `e`, but leaves `b` selected. -/
theorem C14_search_jumps_to_first_counterexample :
    Search findExact 4 (listing [item "b", { item "" with Name := "x" }] "b" 0) "x"
      = .ok (listing [item "b", { item "" with Name := "x", IsSearchResult := true }] "b" 0, 1) ∧
    ([item "b", { item "" with Name := "x", IsSearchResult := true }].filter
        (fun r => r.IsSearchResult)).head?
      = some { item "" with Name := "x", IsSearchResult := true } ∧
    (listing [item "b", { item "" with Name := "x", IsSearchResult := true }] "b" 0).SelectedChannel
      ≠ ({ item "" with Name := "x", IsSearchResult := true } : ChannelItem).ID :=
  ⟨rfl, rfl, by decide⟩

/-- C14, amended: whatever `fuzzy.Find` returns, every result `(c1, n)` of
`Search(term)` has `n ≥ 0`. When `n > 0`, `SearchPosition = 0` and the store has a first
flagged record; if its id is non-empty, it is the selected record. When `n = 0`,
`SelectedChannel`, `Offset` and `SearchPosition` are as before. `Search` does return
when no record has the empty id. -/
theorem C14_search_jumps_to_first (find : String → List String → List String) (fuel : Nat)
    (c : Channels) (term : String) (hfuel : 2 ≤ fuel) :
    (∀ c1 n, Search find fuel c term = .ok (c1, n) →
      0 ≤ n ∧
      (0 < n → c1.SearchPosition = 0 ∧
        ∃ f, (c1.ChannelItems.filter (fun r => r.IsSearchResult)).head? = some f ∧
          (f.ID ≠ "" → c1.SelectedChannel = f.ID)) ∧
      (n = 0 → c1.SelectedChannel = c.SelectedChannel ∧ c1.Offset = c.Offset ∧
        c1.SearchPosition = c.SearchPosition)) ∧
    ((∀ x ∈ c.ChannelItems, x.ID ≠ "") → ∃ c1 n, Search find fuel c term = .ok (c1, n)) := by
  obtain ⟨k, rfl⟩ : ∃ k, fuel = k + 2 := ⟨fuel - 2, by omega⟩
  constructor
  · intro c1 n h
    obtain ⟨hstore, hn⟩ := Search_store h
    simp only at hstore hn
    refine ⟨hn ▸ (searchFlags_count find c term).1, ?_, ?_⟩
    · intro hpos
      rw [hn] at hpos
      obtain ⟨f, hhead, _, hget⟩ := searchFlags_first find c term hpos
      rw [Search_eq, if_pos hpos] at h
      cases hg : GotoPosition (k + 2) { c with ChannelItems := (searchFlags find c term).1 } 0 with
      | error e => rw [hg] at h; cases h
      | ok g =>
        rw [hg] at h
        cases h
        refine ⟨rfl, f, by rw [hstore]; exact hhead, ?_⟩
        intro hid
        have hgo := GotoPosition_at k _ 0 f hget hid
        simp only [Nat.cast_zero] at hgo
        rw [hgo] at hg
        cases hg
        exact (relocate_onlyScroll _).fields.2.2.2.2
    · intro hzero
      rw [hn] at hzero
      rw [Search_eq, if_neg (by omega)] at h
      cases h
      exact ⟨rfl, rfl, rfl⟩
  · intro hids
    obtain ⟨r, hr⟩ := Search_returns find k c term hids
    exact ⟨r.1, r.2, hr⟩

/-- C14 (amended) on the names `general`, `random`, `genesis` and the term `gen`:
`general` and `genesis` are flagged, `random` is not, the count is 2, `general` is
selected and `SearchPosition = 0`. -/
theorem C14_search_jumps_to_first_witness :
    Search (findBy subsequenceMatch) 4
        (listing [item "general", item "random", item "genesis"] "random" 0) "gen"
      = .ok (listing [flagged "general", item "random", flagged "genesis"] "general" 0, 2) ∧
    (0 : Int) ≤ 2 ∧
    ((0 : Int) < 2 →
      (listing [flagged "general", item "random", flagged "genesis"] "general" 0).SearchPosition
        = 0 ∧
      ∃ f, ((listing [flagged "general", item "random", flagged "genesis"] "general"
            0).ChannelItems.filter (fun r => r.IsSearchResult)).head? = some f ∧
        (f.ID ≠ "" →
          (listing [flagged "general", item "random", flagged "genesis"] "general"
            0).SelectedChannel = f.ID)) :=
  ⟨rfl,
   ((C14_search_jumps_to_first (findBy subsequenceMatch) 4
      (listing [item "general", item "random", item "genesis"] "random" 0) "gen"
      (by decide)).1 _ 2 rfl).1,
   ((C14_search_jumps_to_first (findBy subsequenceMatch) 4
      (listing [item "general", item "random", item "genesis"] "random" 0) "gen"
      (by decide)).1 _ 2 rfl).2.1⟩

end SlackTerm
